import Mathlib

/-!
Resume Intelligence Pipeline — shallow embedding and verification
=================================================================

This file embeds the algorithmic core of the resume-analysis backend
(`app/services/ats_converter.py`, `app/services/missing_skills.py`,
`app/services/ats_scorer.py`, `app/services/nlp_analyzer.py`) as executable
Lean definitions and proves properties of that embedding.

Embedding conventions:

* Python strings are modelled as `String` / `List Char`; all inputs of
  interest are ASCII, and the ASCII fragments of `str.lower`, `str.upper`,
  `str.istitle`, `str.isupper`, `str.strip`, `str.split` are modelled
  exactly as CPython computes them on ASCII text.
* Multi-line text is modelled as its list of lines (the image of
  `text.split('\n')`); joining with `'\n'` and re-splitting is the identity
  on such lists, so functions that in Python join and re-split text are
  composed directly on line lists.  An empty Python string corresponds to
  the line list `[""]` (since `''.split('\n') == ['']`).
* Python `dict`s with string keys are modelled as association lists with
  insert-or-update (`alSet`) preserving first-insertion order, which is how
  CPython dicts iterate.
* Python `re` scans are modelled by hand-rolled scanners that implement the
  specific regular expressions appearing in the source (documented at each
  definition).
* Python floats are modelled by exact arithmetic (`Nat` division is used
  where the source truncates a non-negative float with `int(...)`).
-/

namespace Resume

/-! ## Python string primitives (ASCII fragment) -/

/-- The ASCII whitespace characters stripped by `str.strip()` and matched by
the regex class `\s`. -/
def pySpace (c : Char) : Bool :=
  c == ' ' || c == '\t' || c == '\n' || c == '\r' || c == '\x0b' || c == '\x0c'

def isUpperAlpha (c : Char) : Bool := 'A' ≤ c && c ≤ 'Z'

def isLowerAlpha (c : Char) : Bool := 'a' ≤ c && c ≤ 'z'

def isAsciiAlpha (c : Char) : Bool := isUpperAlpha c || isLowerAlpha c

def isDigitC (c : Char) : Bool := '0' ≤ c && c ≤ '9'

def isAlnum (c : Char) : Bool := isAsciiAlpha c || isDigitC c

/-- `\w` of Python `re` on ASCII text. -/
def isWordChar (c : Char) : Bool := isAlnum c || c == '_'

/-- `str.strip()` on a list of characters. -/
def lcStrip (cs : List Char) : List Char :=
  ((cs.dropWhile pySpace).reverse.dropWhile pySpace).reverse

def strStrip (s : String) : String := String.mk (lcStrip s.data)

def lcLower (cs : List Char) : List Char := cs.map Char.toLower

def strLower (s : String) : String := String.mk (lcLower s.data)

def strUpper (s : String) : String := String.mk (s.data.map Char.toUpper)

/-- `str.isupper()`: at least one cased character and no lowercase one
(ASCII fragment: cased = ASCII letter). -/
def pyIsUpper (cs : List Char) : Bool :=
  cs.any isAsciiAlpha && !cs.any isLowerAlpha

/-- `str.istitle()` on ASCII text: uppercase letters only follow uncased
characters, lowercase letters only follow cased ones, and at least one cased
character occurs. -/
def pyIsTitleAux : List Char → Bool → Bool → Bool
  | [], _, found => found
  | c :: rest, prevCased, found =>
    if isUpperAlpha c then
      if prevCased then false else pyIsTitleAux rest true true
    else if isLowerAlpha c then
      if prevCased then pyIsTitleAux rest true found else false
    else pyIsTitleAux rest false found

def pyIsTitle (cs : List Char) : Bool := pyIsTitleAux cs false false

/-- `str.split()` (split on whitespace runs, dropping empty fields). -/
def splitWS : List Char → List (List Char)
  | [] => []
  | c :: rest =>
    if pySpace c then splitWS rest
    else
      match splitWS rest with
      | [] => [[c]]
      | w :: ws =>
        match rest with
        | [] => [[c]]
        | d :: _ => if pySpace d then [c] :: w :: ws else (c :: w) :: ws

/-- Number of fields of `str.split()`. -/
def wordCount (cs : List Char) : Nat := (splitWS cs).length

/-- Python substring containment `pat in text`. -/
def hasSub (pat : List Char) : List Char → Bool
  | [] => pat.isEmpty
  | c :: rest => pat.isPrefixOf (c :: rest) || hasSub pat rest

/-- `str.find(pat)` as an `Option` (index of the first occurrence). -/
def firstIdx (pat : List Char) : List Char → Option Nat
  | [] => if pat.isEmpty then some 0 else none
  | c :: rest =>
    if pat.isPrefixOf (c :: rest) then some 0
    else (firstIdx pat rest).map (· + 1)

/-- All start indices of occurrences of `pat` (used to express claims about
"nearest occurrences"; the code itself only uses first occurrences). -/
def allIdx (pat : List Char) : List Char → List Nat
  | [] => if pat.isEmpty then [0] else []
  | c :: rest =>
    let tl := (allIdx pat rest).map (· + 1)
    if pat.isPrefixOf (c :: rest) then 0 :: tl else tl

/-- `str.title()` on ASCII text: the first letter of every alphabetic run is
uppercased, the rest lowercased. -/
def pyTitleAux : List Char → Bool → List Char
  | [], _ => []
  | c :: rest, prevAlpha =>
    if isAsciiAlpha c then
      (if prevAlpha then c.toLower else c.toUpper) :: pyTitleAux rest true
    else c :: pyTitleAux rest false

def pyTitle (s : String) : String := String.mk (pyTitleAux s.data false)

/-- Maximal prefix of characters satisfying `p`, with the remainder. -/
def takeClass (p : Char → Bool) : List Char → List Char × List Char
  | [] => ([], [])
  | c :: rest =>
    if p c then
      let (run, r) := takeClass p rest
      (c :: run, r)
    else ([], c :: rest)

/-- Does `p` hold of some suffix of `cs` (used to scan every start position
of a regex search)? -/
def anyPos (p : List Char → Bool) : List Char → Bool
  | [] => p []
  | c :: rest => p (c :: rest) || anyPos p rest

/-- `'\n'.join` at the character level (the inverse of splitting a text into
its lines). -/
def joinLinesChars : List String → List Char
  | [] => []
  | [l] => l.data
  | l :: ls => l.data ++ '\n' :: joinLinesChars ls

end Resume

namespace ATSConverter

open Resume

/-! ## `app/services/ats_converter.py` — section segmenter and reconstructor -/

/-- `ATSConverter.section_keywords`, verbatim from `__init__`. -/
def sectionKeywords : List (String × List String) :=
  [("contact", ["contact", "personal information", "contact info", "personal profile",
                "contact details"]),
   ("summary", ["summary", "objective", "profile", "professional summary", "background",
                "about me", "executive summary", "career objective"]),
   ("experience", ["experience", "work experience", "employment", "work history",
                   "professional experience", "career history", "professional background",
                   "employment history", "work record"]),
   ("education", ["education", "academic background", "qualifications", "academic history",
                  "studies", "educational background", "academic profile"]),
   ("skills", ["skills", "technical skills", "competencies", "abilities", "expertise",
               "specializations", "technologies", "tools", "core competencies",
               "professional skills"]),
   ("certifications", ["certifications", "certificates", "licenses", "credentials",
                       "courses", "professional certifications"]),
   ("projects", ["projects", "personal projects", "portfolio", "recent projects",
                 "selected projects", "academic projects"]),
   ("awards", ["awards", "honors", "achievements", "recognition", "accomplishments",
               "honors & awards"])]

/-- `line.lower().replace('&', 'and').replace('/', ' ')` of
`_identify_section`. -/
def normalizeLine (cs : List Char) : List Char :=
  ((lcLower cs).flatMap fun c => if c == '&' then ['a', 'n', 'd'] else [c]).map
    fun c => if c == '/' then ' ' else c

/-- A character of the regex class `[-=•#\s]` used around headers. -/
def padChar (c : Char) : Bool :=
  c == '-' || c == '=' || c == '•' || c == '#' || pySpace c

def stripPads (cs : List Char) : List Char :=
  ((cs.dropWhile padChar).reverse.dropWhile padChar).reverse

/-- Rule 1 of `_identify_section`: `keyword.lower() == normalized_line.strip()`. -/
def rule1 (kw : List Char) (cs : List Char) : Bool :=
  lcStrip (normalizeLine cs) == kw

/-- Rule 2 of `_identify_section`:
`re.search(rf'^[-=•#\s]*{re.escape(keyword)}[-=•#\s]*$', line, re.IGNORECASE)`.
Every keyword starts and ends with a letter, so the regex matches exactly when
stripping `[-=•#\s]` characters from both ends of the lowered line leaves the
keyword. -/
def rule2 (kw : List Char) (cs : List Char) : Bool :=
  stripPads (lcLower cs) == kw

/-- `line.isupper() or line.istitle() or line.replace('&', '').istitle()`. -/
def isTitleLike (cs : List Char) : Bool :=
  pyIsUpper cs || pyIsTitle cs || pyIsTitle (cs.filter (· ≠ '&'))

/-- Rule 3 of `_identify_section`: keyword inside a short title-like line. -/
def rule3 (kw : List Char) (titleLike : Bool) (nWords : Nat) (normed : List Char) : Bool :=
  titleLike && hasSub kw normed && nWords ≤ 4

/-- The keyword loop of `_identify_section` for one section; `continue`
(next keyword) when a rule-2/3 candidate falls in the protected zone without
being fully capitalized. -/
def identifyKw (prot : Bool) (isUp : Bool) (titleLike : Bool) (nWords : Nat)
    (normed : List Char) (cs : List Char) (sec : String) : List String → Option String
  | [] => none
  | kw :: rest =>
    let kwc := kw.data
    if rule1 kwc cs then some sec
    else if rule2 kwc cs then
      if prot && !isUp then identifyKw prot isUp titleLike nWords normed cs sec rest
      else some sec
    else if rule3 kwc titleLike nWords normed then
      if prot && !isUp then identifyKw prot isUp titleLike nWords normed cs sec rest
      else some sec
    else identifyKw prot isUp titleLike nWords normed cs sec rest

def identifyGo (prot : Bool) (isUp : Bool) (titleLike : Bool) (nWords : Nat)
    (normed : List Char) (cs : List Char) : List (String × List String) → Option String
  | [] => none
  | (sec, kws) :: rest =>
    match identifyKw prot isUp titleLike nWords normed cs sec kws with
    | some s => some s
    | none => identifyGo prot isUp titleLike nWords normed cs rest

/-- `ATSConverter._identify_section(line, is_protected)`. -/
def identifySection (line : String) (prot : Bool) : Option String :=
  let cs := lcStrip line.data
  if cs.isEmpty || cs.length > 60 then none
  else if wordCount cs > 6 then none
  else
    identifyGo prot (pyIsUpper cs) (isTitleLike cs) (wordCount cs) (normalizeLine cs) cs
      sectionKeywords

/-! Scanners for the garbage-line regexes of `_is_garbage_line`. -/

/-- Consume `\d+` (at least one digit), returning the rest. -/
def digits1 : List Char → Option (List Char)
  | c :: rest => if isDigitC c then some ((takeClass isDigitC rest).2) else none
  | [] => none

/-- `re.search(r'page \d+ of \d+', line_lower)`. -/
def hasPageOf (low : List Char) : Bool :=
  anyPos
    (fun t =>
      match (String.data "page ").isPrefixOf t, digits1 (t.drop 5) with
      | true, some r1 =>
        match (String.data " of ").isPrefixOf r1, digits1 (r1.drop 4) with
        | true, some _ => true
        | _, _ => false
      | _, _ => false)
    low

/-- `re.search(r'^\d+\s*/\s*\d+$', line_lower)`. -/
def isNumSlashNum (low : List Char) : Bool :=
  match digits1 low with
  | some r1 =>
    match (r1.dropWhile pySpace) with
    | '/' :: r2 =>
      match digits1 (r2.dropWhile pySpace) with
      | some r3 => r3.isEmpty
      | none => false
    | _ => false
  | none => false

/-- `re.search(r'\d{4}-\d{2}-\d{2}', line_lower)`. -/
def hasDateLike (low : List Char) : Bool :=
  anyPos
    (fun t =>
      match t with
      | a :: b :: c :: d :: '-' :: e :: f :: '-' :: g :: h :: _ =>
        isDigitC a && isDigitC b && isDigitC c && isDigitC d && isDigitC e && isDigitC f &&
          isDigitC g && isDigitC h
      | _ => false)
    low

/-- `ATSConverter._is_garbage_line(line)`. -/
def isGarbageLine (line : String) : Bool :=
  let low := lcLower line.data
  hasPageOf low || isNumSlashNum low || hasDateLike low ||
    (String.data "/").isPrefixOf line.data || (String.data "C:\\").isPrefixOf line.data ||
    (lcStrip line.data).length < 2

/-! Scanners for the contact-entity regexes of `_extract_contact_info`. -/

/-- The class `[a-zA-Z0-9._%+-]` of the local part of the email regex. -/
def emailLocalChar (c : Char) : Bool :=
  isAlnum c || c == '.' || c == '_' || c == '%' || c == '+' || c == '-'

/-- The class `[a-zA-Z0-9.-]` of the domain part of the email regex. -/
def emailDomChar (c : Char) : Bool := isAlnum c || c == '.' || c == '-'

/-- How many characters of a domain-run suffix the pattern `\.[a-zA-Z]{2,}`
consumes, preferring the rightmost usable dot (greedy backtracking).  The
caller passes the run without its first character, since `[a-zA-Z0-9.-]+`
must consume at least one character before the dot. -/
def emailDomUsed : List Char → Option Nat
  | [] => none
  | c :: rest =>
    match emailDomUsed rest with
    | some n => some (n + 1)
    | none =>
      if c == '.' then
        let a := (takeClass isAsciiAlpha rest).1.length
        if 2 ≤ a then some (1 + a) else none
      else none

/-- Try to match `[a-zA-Z0-9._%+-]+@[a-zA-Z0-9.-]+\.[a-zA-Z]{2,}` at the head
of `cs`; on success return the match and the remainder of the text. -/
def matchEmailAt (cs : List Char) : Option (List Char × List Char) :=
  let (loc, r1) := takeClass emailLocalChar cs
  if loc.isEmpty then none
  else
    match r1 with
    | '@' :: r2 =>
      let (dom, r3) := takeClass emailDomChar r2
      match dom with
      | [] => none
      | _ :: dRest =>
        match emailDomUsed dRest with
        | some used => some (loc ++ '@' :: dom.take (used + 1), dom.drop (used + 1) ++ r3)
        | none => none
    | _ => none

/-- `re.search` of the email pattern (used to keep email-bearing lines from
being taken as the candidate's name). -/
def emailSearchB (cs : List Char) : Bool :=
  anyPos (fun t => (matchEmailAt t).isSome) cs

/-- `re.findall` of the email pattern: scan left to right, skipping past each
match (the fuel argument is the length of the text). -/
def emailFindAllAux : Nat → List Char → List (List Char)
  | 0, _ => []
  | _, [] => []
  | fuel + 1, c :: rest =>
    match matchEmailAt (c :: rest) with
    | some (m, after) => m :: emailFindAllAux fuel after
    | none => emailFindAllAux fuel rest

def emailFindAll (cs : List Char) : List String :=
  (emailFindAllAux cs.length cs).map String.mk

/-- A character of the class `[-.\s]` separating phone-number groups. -/
def phoneSep (c : Char) : Bool := c == '-' || c == '.' || pySpace c

/-- `\d{n}` exactly. -/
def digitsN : Nat → List Char → Option (List Char)
  | 0, cs => some cs
  | n + 1, c :: rest => if isDigitC c then digitsN n rest else none
  | _ + 1, [] => none

/-- `[-.\s]?` (greedy: consume a separator when present; one alternative,
since the continuation never fails earlier with it consumed in this pattern). -/
def optSep : List Char → List Char
  | c :: rest => if phoneSep c then rest else c :: rest
  | [] => []

/-- The mandatory tail `\(?\d{3}\)?[-.\s]?\d{3}[-.\s]?\d{4,}` of the phone
pattern. -/
def phoneTail (cs : List Char) : Option (List Char) :=
  let cs := match cs with
            | '(' :: r => r
            | _ => cs
  match digitsN 3 cs with
  | none => none
  | some r1 =>
    let r1 := match r1 with
              | ')' :: r => r
              | _ => r1
    match digitsN 3 (optSep r1) with
    | none => none
    | some r2 =>
      match digitsN 4 (optSep r2) with
      | none => none
      | some r3 => some ((takeClass isDigitC r3).2)

/-- The optional leading group `(\+?\d{1,3}[-.\s]?)?` of the phone pattern:
try greedy alternatives (group present, longest digit run first) and return
the group-1 text together with the rest after the whole match.
`re.findall` with one group returns the group-1 captures. -/
def phoneMatchAt (cs : List Char) : Option (List Char × List Char) :=
  let withGroup : List (List Char × List Char) :=
    let (plus, afterPlus) := match cs with
                             | '+' :: r => (['+'], r)
                             | _ => ([], cs)
    let (digs, _) := takeClass isDigitC afterPlus
    (List.range 3).filterMap fun i =>
      let n := 3 - i
      if n ≤ digs.length && 1 ≤ n then
        let g := plus ++ digs.take n
        let rest := afterPlus.drop n
        match rest with
        | c :: r => if phoneSep c then some (g ++ [c], r) else some (g, rest)
        | [] => some (g, [])
      else none
  let tryGroup := withGroup.filterMap fun (g, rest) =>
    (phoneTail rest).map fun after => (g, after)
  match tryGroup with
  | r :: _ => some r
  | [] => (phoneTail cs).map fun after => (([] : List Char), after)

/-- `re.findall` of the phone pattern (yielding group-1 captures, as CPython
does when the pattern has exactly one group). -/
def phoneFindAllAux : Nat → List Char → List (List Char)
  | 0, _ => []
  | _, [] => []
  | fuel + 1, c :: rest =>
    match phoneMatchAt (c :: rest) with
    | some (g, after) => g :: phoneFindAllAux fuel after
    | none => phoneFindAllAux fuel rest

def phoneFindAll (cs : List Char) : List String :=
  (phoneFindAllAux cs.length cs).map String.mk

/-- The class `[a-zA-Z0-9-]` of linkedin/github handles. -/
def handleChar (c : Char) : Bool := isAlnum c || c == '-'

/-- Match `lit` followed by `[a-zA-Z0-9-]+` at the head of `cs`. -/
def matchHandleAt (lit : List Char) (cs : List Char) : Option (List Char × List Char) :=
  if lit.isPrefixOf cs then
    let (run, r) := takeClass handleChar (cs.drop lit.length)
    if run.isEmpty then none else some (lit ++ run, r)
  else none

def handleFindAllAux (lit : List Char) : Nat → List Char → List (List Char)
  | 0, _ => []
  | _, [] => []
  | fuel + 1, c :: rest =>
    match matchHandleAt lit (c :: rest) with
    | some (m, after) => m :: handleFindAllAux lit fuel after
    | none => handleFindAllAux lit fuel rest

/-- `re.findall(r'linkedin\.com/in/[a-zA-Z0-9-]+', text)`. -/
def linkedinFindAll (cs : List Char) : List String :=
  (handleFindAllAux (String.data "linkedin.com/in/") cs.length cs).map String.mk

/-- `re.findall(r'github\.com/[a-zA-Z0-9-]+', text)`. -/
def githubFindAll (cs : List Char) : List String :=
  (handleFindAllAux (String.data "github.com/") cs.length cs).map String.mk

/-- The name-selection loop of `_extract_contact_info`: among the first three
non-empty stripped lines, the first short line that is not a section header
and contains no email pattern. -/
def contactName (lines : List String) : String :=
  let ls := ((lines.map strStrip).filter (· ≠ "")).take 10 |>.take 3
  match ls.find? (fun l =>
      wordCount l.data ≤ 4 && (identifySection l false).isNone && !emailSearchB l.data) with
  | some l => l
  | none => ""

/-- `'\n'.join([name] + emails + phones + linkedin + github)` as a line list
(the matched entities contain no newline on the inputs considered). -/
def contactRawLines (lines : List String) : List String :=
  let textC := joinLinesChars lines
  [contactName lines] ++ emailFindAll textC ++ phoneFindAll textC ++
    linkedinFindAll textC ++ githubFindAll textC

/-! Association-list model of the `sections` dict. -/

abbrev SectionMap := List (String × List String)

def alSet (m : SectionMap) (k : String) (v : List String) : SectionMap :=
  if m.any (·.1 == k) then m.map (fun p => if p.1 == k then (k, v) else p)
  else m ++ [(k, v)]

def alGet (m : SectionMap) (k : String) : List String :=
  match m.find? (·.1 == k) with
  | some p => p.2
  | none => [""]

def alHas (m : SectionMap) (k : String) : Bool := m.any (·.1 == k)

def keysOf (m : SectionMap) : List String := m.map (·.1)

/-- The walker state of the line loop in `_extract_sections`: current
section, accumulated content lines, the sections dict and the running count
of non-empty non-garbage lines. -/
structure WalkState where
  cs : String
  cc : List String
  m : SectionMap
  cnt : Nat

/-- Flush `current_content` into the current section: contact merges with
`'\n'`, any other section is overwritten. -/
def flushInto (st : WalkState) : SectionMap :=
  if st.cc.isEmpty then st.m
  else if st.cs == "contact" then alSet st.m "contact" (alGet st.m "contact" ++ st.cc)
  else alSet st.m st.cs st.cc

/-- One iteration of the line loop of `_extract_sections`. -/
def step (st : WalkState) (line : String) : WalkState :=
  let ls := strStrip line
  if ls == "" || isGarbageLine ls then st
  else
    let cnt := st.cnt + 1
    let sOpt := identifySection ls (decide (cnt < 5))
    let sOpt := if cnt == 1 then none else sOpt
    match sOpt with
    | some sec => { cs := sec, cc := [], m := flushInto { st with cnt := cnt }, cnt := cnt }
    | none => { st with cc := st.cc ++ [ls], cnt := cnt }

/-- The final flush after the loop (`sections[current_section] = ...`,
overwriting also for contact). -/
def finishWalk (st : WalkState) : SectionMap :=
  if st.cc.isEmpty then st.m else alSet st.m st.cs st.cc

/-- The contact-section clean-up loop of `_format_contact_section`. -/
def formatContactAux (name : String) : List String → List String → List String
  | [], _ => []
  | line :: rest, seen =>
    let l := strStrip line
    if l == "" || seen.contains (strLower l) then formatContactAux name rest seen
    else if 120 < l.length then formatContactAux name rest seen
    else if (identifySection l false).isSome then formatContactAux name rest seen
    else if
        (["experience", "education", "skills", "summary", "university", "college",
          "professor"].any fun bk => hasSub bk.data (lcLower l.data)) && 20 < l.length then
      formatContactAux name rest seen
    else l :: formatContactAux name rest (strLower l :: seen)

/-- `ATSConverter._format_contact_section`: filter the accumulated contact
lines and move the extracted name to the front. -/
def formatContactSection (content : List String) (name : String) : List String :=
  let clean := formatContactAux name content []
  if name ≠ "" && !clean.isEmpty && clean.head? ≠ some name then
    name :: (if clean.contains name then clean.erase name else clean)
  else clean

/-- `ATSConverter._extract_sections`, at the line level: pre-populate the
contact bucket from the regex scan, walk the lines switching buckets at
recognized headers, flush, and clean the contact bucket. -/
def extractSections (lines : List String) : SectionMap :=
  let raw := contactRawLines lines
  let st := lines.foldl step { cs := "contact", cc := [], m := [("contact", raw)], cnt := 0 }
  let m1 := finishWalk st
  alSet m1 "contact" (formatContactSection (alGet m1 "contact") (contactName lines))

/-- `ATSConverter._combine_sections_text` order. -/
def sectionOrder : List String :=
  ["contact", "summary", "experience", "education", "skills", "certifications",
   "projects", "awards"]

/-- `'=' * len(header)` under a section header. -/
def underlineOf (k : String) : String :=
  String.mk (List.replicate (strUpper k).length '=')

/-- The line list of one `f"{header}\n{'='*len(header)}\n{content}"` part. -/
def renderBlock (k : String) (content : List String) : List String :=
  [strUpper k, underlineOf k] ++ (if content.isEmpty then [""] else content)

def joinBlankSep : List (List String) → List String
  | [] => []
  | [p] => p
  | p :: ps => p ++ [""] ++ joinBlankSep ps

def dropEndEmpties (ls : List String) : List String :=
  ((ls.dropWhile (· == "")).reverse.dropWhile (· == "")).reverse

/-- `ATSConverter._combine_sections_text`, at the line level: concatenate the
present sections in canonical order, each headed by its upper-cased name and
an `=` underline, blocks separated by one blank line; the final `.strip()`
removes only whole empty boundary lines since header, underline and stored
content lines carry no boundary whitespace. -/
def combineSections (m : SectionMap) : List String :=
  dropEndEmpties
    (joinBlankSep ((sectionOrder.filter (alHas m ·)).map fun k => renderBlock k (alGet m k)))

end ATSConverter

namespace MissingSkills

open Resume

/-! ## `app/services/missing_skills.py` — gap analyzer -/

/-- `MissingSkillsAnalyzer.skills_database`, verbatim from `__init__`. -/
def skillsDatabase : List (String × List String) :=
  [("programming",
    ["Python", "JavaScript", "TypeScript", "Java", "C++", "C#",
     "Go", "Rust", "Ruby", "PHP", "Swift", "Kotlin", "Scala",
     "R", "MATLAB", "Perl", "Haskell", "Lua", "Dart", "Objective-C",
     "Shell", "Bash", "PowerShell", "SQL", "NoSQL"]),
   ("frameworks",
    ["React", "React.js", "Angular", "Vue.js", "Vue", "Next.js",
     "Node.js", "Express", "Express.js", "Django", "Flask",
     "FastAPI", "Spring Boot", "Spring", "ASP.NET", ".NET Core",
     "Ruby on Rails", "Rails", "Laravel", "Symfony", "jQuery",
     "Bootstrap", "Tailwind CSS", "Svelte", "Nuxt.js", "Gatsby",
     "Redux", "MobX", "Vuex", "GraphQL", "REST API", "RESTful"]),
   ("databases",
    ["MongoDB", "PostgreSQL", "MySQL", "SQLite", "Oracle",
     "SQL Server", "Redis", "Elasticsearch", "Cassandra",
     "DynamoDB", "Firebase", "Neo4j", "MariaDB", "CouchDB",
     "InfluxDB", "TimescaleDB", "Supabase", "PlanetScale"]),
   ("cloud_devops",
    ["AWS", "Amazon Web Services", "Azure", "Google Cloud", "GCP",
     "Docker", "Kubernetes", "K8s", "Terraform", "Ansible",
     "Jenkins", "CircleCI", "GitHub Actions", "GitLab CI",
     "Travis CI", "Heroku", "Vercel", "Netlify", "DigitalOcean",
     "CloudFormation", "Pulumi", "Helm", "ArgoCD", "Istio",
     "Prometheus", "Grafana", "ELK Stack", "Datadog", "New Relic",
     "CI/CD", "DevOps", "SRE", "Infrastructure as Code", "IaC"]),
   ("data_science",
    ["Machine Learning", "Deep Learning", "TensorFlow", "PyTorch",
     "Keras", "Scikit-learn", "Pandas", "NumPy", "Matplotlib",
     "Seaborn", "Jupyter", "Apache Spark", "Hadoop", "NLP",
     "Natural Language Processing", "Computer Vision", "OpenCV",
     "Neural Networks", "Data Mining", "Data Analysis",
     "Statistics", "A/B Testing", "Feature Engineering",
     "MLOps", "Model Deployment", "Hugging Face", "LLM",
     "GPT", "BERT", "Transformers", "RAG"]),
   ("tools",
    ["Git", "GitHub", "GitLab", "Bitbucket", "JIRA", "Confluence",
     "Trello", "Asana", "Slack", "VS Code", "IntelliJ", "PyCharm",
     "Postman", "Insomnia", "Figma", "Sketch", "Adobe XD",
     "Linux", "Unix", "macOS", "Windows Server",
     "Nginx", "Apache", "Load Balancing", "CDN"]),
   ("security",
    ["OAuth", "JWT", "Authentication", "Authorization",
     "OWASP", "Penetration Testing", "Security Audit",
     "Encryption", "SSL/TLS", "HTTPS", "Firewall",
     "IAM", "SSO", "SAML", "LDAP"]),
   ("testing",
    ["Unit Testing", "Integration Testing", "E2E Testing",
     "Jest", "Mocha", "Chai", "Pytest", "JUnit", "Selenium",
     "Cypress", "Playwright", "TestNG", "TDD", "BDD",
     "Test Automation", "QA", "Quality Assurance"]),
   ("methodologies",
    ["Agile", "Scrum", "Kanban", "Waterfall", "Lean",
     "SAFe", "XP", "Extreme Programming", "Sprint Planning",
     "Code Review", "Pair Programming", "Mob Programming"]),
   ("soft_skills",
    ["Leadership", "Communication", "Problem Solving",
     "Team Collaboration", "Teamwork", "Time Management",
     "Critical Thinking", "Adaptability", "Creativity",
     "Project Management", "Mentoring", "Coaching",
     "Presentation", "Public Speaking", "Negotiation",
     "Conflict Resolution", "Decision Making", "Strategic Thinking",
     "Emotional Intelligence", "Customer Focus", "Innovation"])]

def softSkillsList : List String :=
  ["Leadership", "Communication", "Problem Solving",
   "Team Collaboration", "Teamwork", "Time Management",
   "Critical Thinking", "Adaptability", "Creativity",
   "Project Management", "Mentoring", "Coaching",
   "Presentation", "Public Speaking", "Negotiation",
   "Conflict Resolution", "Decision Making", "Strategic Thinking",
   "Emotional Intelligence", "Customer Focus", "Innovation"]

/-- `MissingSkillsAnalyzer.required_keywords`. -/
def requiredKeywords : List String :=
  ["required", "must have", "must-have", "essential",
   "mandatory", "necessary", "need to have", "requirements",
   "qualifications", "you have", "you bring"]

/-- `MissingSkillsAnalyzer.preferred_keywords`. -/
def preferredKeywords : List String :=
  ["preferred", "nice to have", "nice-to-have", "bonus",
   "plus", "advantage", "ideally", "optional", "desired",
   "good to have", "beneficial"]

/-- A character of the boundary class `[\s,;:()\[\]./]` of
`_extract_skills_from_text`. -/
def sepChar (c : Char) : Bool :=
  pySpace c || c == ',' || c == ';' || c == ':' || c == '(' || c == ')' ||
    c == '[' || c == ']' || c == '.' || c == '/'

/-- `re.search(r'(?:^|[\s,;:()\[\]./])' + skill + r'(?:[\s,;:()\[\]./]|$)',
text_lower)`: an occurrence of the (lowered, regex-escaped, hence literal)
skill phrase delimited on both sides by the boundary class or the ends of the
text.  `prevOk` records whether the previous character (if any) was a
boundary character; initially the start of the text counts as a boundary. -/
def skillMentionedAux (skl : List Char) : List Char → Bool → Bool
  | [], prevOk => prevOk && skl.isEmpty
  | c :: rest, prevOk =>
    (prevOk && skl.isPrefixOf (c :: rest) &&
      (match (c :: rest).drop skl.length with
       | [] => true
       | d :: _ => sepChar d)) ||
    skillMentionedAux skl rest (sepChar c)

/-- The skill phrase occurs boundary-delimited in the (already lowered)
text. -/
def skillMentioned (textLow : List Char) (skl : List Char) : Bool :=
  skillMentionedAux skl textLow true

/-- `MissingSkillsAnalyzer._extract_skills_from_text`: collect every database
skill whose lowered phrase occurs boundary-delimited in the lowered text.
The source accumulates a Python `set` (unordered); the embedding keeps
database order, deduplicated, which carries the same set of skills. -/
def extractSkillsFromText (text : String) : List String :=
  let low := lcLower text.data
  ((skillsDatabase.flatMap (·.2)).filter fun skl =>
      skillMentioned low (lcLower skl.data)).dedup

/-- The classification a skill receives in `_categorize_by_importance`. -/
inductive SkillClass where
  | critical
  | recommended
  | soft
deriving DecidableEq, Repr

/-- Is the skill's first occurrence within 300 characters of the first
occurrence of some keyword of `kws`?  This is the loop
`for keyword in kws: keyword_pos = text_lower.find(keyword); ...
distance = abs(skill_match.start() - keyword_pos); if distance < 300`. -/
def firstOccNear (textLow : List Char) (skl : List Char) (kws : List String) : Bool :=
  kws.any fun kw =>
    match firstIdx kw.data textLow, firstIdx skl textLow with
    | some kp, some sp => decide ((sp : Int) - kp < 300 ∧ (kp : Int) - sp < 300)
    | _, _ => false

/-- Specification-side reading of the claim "its nearest occurrence lies
within a fixed ~300-character window of a keyword of the class": some
occurrence of the skill lies within 300 characters of some occurrence of
some keyword (equivalently, the minimal such distance is below the window).
This follows the claim's words; the code (`classifySkill` below) instead
compares only first occurrences. -/
def nearestOccNear (textLow : List Char) (skl : List Char) (kws : List String) : Bool :=
  kws.any fun kw =>
    (allIdx kw.data textLow).any fun kp =>
      (allIdx skl textLow).any fun sp =>
        decide ((sp : Int) - kp < 300 ∧ (kp : Int) - sp < 300)

/-- The per-skill body of the loop in `_categorize_by_importance`. -/
def classifySkill (skl : String) (textLow : List Char) : SkillClass :=
  if softSkillsList.contains skl then .soft
  else if firstOccNear textLow (lcLower skl.data) requiredKeywords then .critical
  else if firstOccNear textLow (lcLower skl.data) preferredKeywords then .recommended
  else .critical

/-- `MissingSkillsAnalyzer._categorize_by_importance`: bucket the found
skills into critical / recommended / soft in input order. -/
def categorizeByImportance (skills : List String) (jobDescription : String) :
    List String × List String × List String :=
  let textLow := lcLower jobDescription.data
  skills.foldr
    (fun skl (acc : List String × List String × List String) =>
      match classifySkill skl textLow with
      | .critical => (skl :: acc.1, acc.2.1, acc.2.2)
      | .recommended => (acc.1, skl :: acc.2.1, acc.2.2)
      | .soft => (acc.1, acc.2.1, skl :: acc.2.2))
    ([], [], [])

/-- The result record of `MissingSkillsAnalyzer.analyze`, with the missing
lists kept both before and after the `[:10]`/`[:8]`/`[:5]` truncation. -/
structure GapReport where
  criticalFull : List String
  recommendedFull : List String
  softFull : List String
  critical : List String
  recommended : List String
  soft : List String
  matchPercentage : Nat
  totalJobSkills : Nat
  matchedSkills : Nat
  matchedSkillsList : List String
  hasJobDescription : Bool
deriving Repr, DecidableEq

/-- The `common_critical` pool of `_get_default_suggestions`. -/
def commonCritical : List String :=
  ["Docker", "Kubernetes", "CI/CD", "AWS", "Git",
   "REST API", "SQL", "Agile", "Unit Testing"]

/-- The `common_recommended` pool of `_get_default_suggestions`. -/
def commonRecommended : List String :=
  ["GraphQL", "Microservices", "TypeScript", "Redis",
   "Terraform", "Monitoring", "Security"]

/-- The `common_soft` pool of `_get_default_suggestions`. -/
def commonSoft : List String :=
  ["Leadership", "Communication", "Problem Solving",
   "Team Collaboration", "Project Management"]

/-- `MissingSkillsAnalyzer._get_default_suggestions`. -/
def getDefaultSuggestions (resumeSkills : List String) : GapReport :=
  let resumeLow := resumeSkills.map strLower
  let missingCritical := (commonCritical.filter fun s => !resumeLow.contains (strLower s)).take 5
  let missingRecommended :=
    (commonRecommended.filter fun s => !resumeLow.contains (strLower s)).take 4
  let missingSoft := (commonSoft.filter fun s => !resumeLow.contains (strLower s)).take 3
  { criticalFull := missingCritical, recommendedFull := missingRecommended,
    softFull := missingSoft,
    critical := missingCritical, recommended := missingRecommended, soft := missingSoft,
    matchPercentage := 0, totalJobSkills := 0, matchedSkills := 0,
    matchedSkillsList := [], hasJobDescription := false }

/-- `round(p/q)` for `q > 0`, with CPython's round-half-to-even. -/
def pyRoundRat (p q : Nat) : Nat :=
  let fl := p / q
  let r2 := 2 * (p % q)
  if r2 < q then fl
  else if q < r2 then fl + 1
  else if fl % 2 = 0 then fl else fl + 1

/-- `MissingSkillsAnalyzer.analyze`: the degraded branch for an absent/short
job description, otherwise extraction, categorization and the three
matched/missing partition loops. -/
def analyze (resumeSkills : List String) (jobDescription : String) : GapReport :=
  if (strStrip jobDescription).length < 20 then getDefaultSuggestions resumeSkills
  else
    let resumeLow := resumeSkills.map strLower
    let jobSkills := extractSkillsFromText jobDescription
    let cat := (categorizeByImportance jobSkills jobDescription).1
    let catR := (categorizeByImportance jobSkills jobDescription).2.1
    let catS := (categorizeByImportance jobSkills jobDescription).2.2
    let missingCritical := cat.filter fun s => !resumeLow.contains (strLower s)
    let missingRecommended := catR.filter fun s => !resumeLow.contains (strLower s)
    let missingSoft := catS.filter fun s => !resumeLow.contains (strLower s)
    let matched := (cat.filter fun s => resumeLow.contains (strLower s)) ++
      (catR.filter fun s => resumeLow.contains (strLower s)) ++
      (catS.filter fun s => resumeLow.contains (strLower s))
    let total := jobSkills.length
    let mp := if total = 0 then 0 else pyRoundRat (matched.length * 100) total
    { criticalFull := missingCritical, recommendedFull := missingRecommended,
      softFull := missingSoft,
      critical := missingCritical.take 10, recommended := missingRecommended.take 8,
      soft := missingSoft.take 5,
      matchPercentage := mp, totalJobSkills := total, matchedSkills := matched.length,
      matchedSkillsList := matched, hasJobDescription := true }

end MissingSkills

namespace NLPAnalyzer

open Resume

/-! ## `app/services/nlp_analyzer.py` — taxonomy skill extraction

The spaCy `PhraseMatcher` tokenization itself is external-library behaviour;
the embedding therefore takes the list of raw matches `(category, matched
lowercased text)` as a parameter and models exactly what
`NLPResumeAnalyzer.extract_skills` computes from them: per-category
deduplicated title-cased skills, counts, and the coverage score
`min(100, int((found / max(total, 1)) * 100) + 50)` (exact arithmetic:
`found * 100 / max total 1` is the truncated percentage). -/

/-- `NLPResumeAnalyzer._initialize_skill_database`, verbatim. -/
def skillDatabase : List (String × List String) :=
  [("programming_languages",
    ["Python", "JavaScript", "TypeScript", "Java", "C++", "C#",
     "Go", "Rust", "Ruby", "PHP", "Swift", "Kotlin", "Scala",
     "R", "MATLAB", "Perl", "Haskell", "Lua", "Dart", "Objective-C"]),
   ("web_frameworks",
    ["React", "React.js", "Angular", "Vue.js", "Vue", "Next.js",
     "Node.js", "Express", "Express.js", "Django", "Flask",
     "FastAPI", "Spring Boot", "Spring", "ASP.NET", "Ruby on Rails",
     "Laravel", "Symfony", "jQuery", "Bootstrap", "Tailwind CSS"]),
   ("databases",
    ["MongoDB", "PostgreSQL", "MySQL", "SQLite", "Oracle",
     "SQL Server", "Redis", "Elasticsearch", "Cassandra",
     "DynamoDB", "Firebase", "Neo4j", "MariaDB", "CouchDB"]),
   ("cloud_devops",
    ["AWS", "Amazon Web Services", "Azure", "Google Cloud", "GCP",
     "Docker", "Kubernetes", "K8s", "Terraform", "Ansible",
     "Jenkins", "CircleCI", "GitHub Actions", "GitLab CI",
     "Heroku", "Vercel", "Netlify", "DigitalOcean"]),
   ("data_science",
    ["Machine Learning", "Deep Learning", "TensorFlow", "PyTorch",
     "Keras", "Scikit-learn", "Pandas", "NumPy", "Matplotlib",
     "Seaborn", "Jupyter", "Apache Spark", "Hadoop", "NLP",
     "Computer Vision", "Neural Networks", "Data Mining"]),
   ("tools",
    ["Git", "GitHub", "GitLab", "Bitbucket", "JIRA", "Confluence",
     "Trello", "Slack", "VS Code", "IntelliJ", "Postman", "Figma",
     "Adobe XD", "Linux", "Unix", "Bash", "PowerShell"]),
   ("soft_skills",
    ["Leadership", "Communication", "Problem Solving", "Teamwork",
     "Project Management", "Agile", "Scrum", "Critical Thinking",
     "Time Management", "Collaboration", "Mentoring", "Presentation"])]

/-- Size of a database category (`len(self.skill_database.get(category, []))`). -/
def dbSize (cat : String) : Nat :=
  match skillDatabase.find? (·.1 == cat) with
  | some p => p.2.length
  | none => 0

/-- One entry of the `extract_skills` result: a category with its
deduplicated skills, their count, and the coverage score. -/
structure SkillsEntry where
  category : String
  skills : List String
  count : Nat
  score : Nat
deriving Repr, DecidableEq

/-- `coverage_score = min(100, int((found / max(total, 1)) * 100) + 50)`. -/
def coverageScore (found total : Nat) : Nat :=
  min 100 (found * 100 / max total 1 + 50)

/-- The match-accumulation loop of `extract_skills`: add a title-cased match
to its category's set (modelled as a first-occurrence-ordered deduplicated
list, matching dict/set insertion semantics on these inputs). -/
def addMatch (acc : List (String × List String)) (cat skl : String) :
    List (String × List String) :=
  if acc.any (·.1 == cat) then
    acc.map fun p => if p.1 == cat then (p.1, if p.2.contains skl then p.2 else p.2 ++ [skl])
      else p
  else acc ++ [(cat, [skl])]

/-- `NLPResumeAnalyzer.extract_skills` given the phrase-matcher output
(category label, matched lowercased span text) of the external matcher. -/
def extractSkillsFromMatches (ms : List (String × String)) : List SkillsEntry :=
  let grouped := ms.foldl (fun acc m => addMatch acc m.1 (pyTitle m.2)) []
  grouped.map fun p =>
    { category := p.1, skills := p.2, count := p.2.length,
      score := coverageScore p.2.length (dbSize p.1) }

end NLPAnalyzer

namespace ATSScorer

open Resume ATSConverter NLPAnalyzer

/-! ## `app/services/ats_scorer.py` — ATS compatibility scorer

`_score_keywords` and `_score_skills` consume `nlp_analyzer.extract_skills`;
as in `NLPAnalyzer`, the external matcher is abstracted: the scorer takes an
arbitrary extractor `ext : String → List SkillsEntry` and is verified for
every possible extractor output. -/

/-- `ATSScorer.required_sections`. -/
def requiredSections : List String :=
  ["experience", "education", "skills", "summary", "contact", "work history", "employment"]

/-- `ATSScorer.action_verbs`. -/
def actionVerbs : List String :=
  ["achieved", "improved", "developed", "created", "managed",
   "led", "designed", "implemented", "increased", "reduced",
   "launched", "built", "delivered", "optimized", "streamlined",
   "spearheaded", "orchestrated", "executed", "transformed"]

/-- `r'[^\x00-\x7F]+'`: some non-ASCII character occurs. -/
def patNonAscii (cs : List Char) : Bool := cs.any fun c => 127 < c.toNat

/-- `r'\|'`. -/
def patPipe (cs : List Char) : Bool := cs.any (· == '|')

/-- `r'[•‣◦]'`: a fancy bullet occurs. -/
def patBullet (cs : List Char) : Bool :=
  cs.any fun c => c == '•' || c == '‣' || c == '◦'

/-- `r'(?:^|\s)([A-Z]\.){2,}'`: at the start of the text or right after a
whitespace character, at least two repetitions of an uppercase letter
followed by a dot. -/
def abbrevHere : List Char → Bool
  | a :: '.' :: b :: '.' :: _ => isUpperAlpha a && isUpperAlpha b
  | _ => false

def patAbbrevAux : List Char → Bool → Bool
  | [], _ => false
  | c :: rest, prevOk =>
    (prevOk && abbrevHere (c :: rest)) || patAbbrevAux rest (pySpace c)

def patAbbrev (cs : List Char) : Bool := patAbbrevAux cs true

/-- `ATSScorer.problematic_patterns`, in source order. -/
def problematicPatterns : List (List Char → Bool) :=
  [patNonAscii, patPipe, patBullet, patAbbrev]

/-- The hostile-pattern loop of `_score_formatting`: deduct 5 at the first
matching pattern and `break`. -/
def hostileLoopDeduct : List (List Char → Bool) → List Char → Nat
  | [], _ => 0
  | p :: rest, cs => if p cs then 5 else hostileLoopDeduct rest cs

/-- The class `[\w.-]` of the formatting email regex. -/
def fmtMailChar (c : Char) : Bool := isWordChar c || c == '.' || c == '-'

/-- After `@[\w.-]+` was taken maximally: does `\.\w+` fit inside the run
(a dot at index ≥ 1 followed by a word character)?  The trailing `\b` is
automatic after a greedy `\w+`. -/
def fmtDomAux : List Char → Bool
  | '.' :: d :: rest => isWordChar d || fmtDomAux (d :: rest)
  | _ :: rest => fmtDomAux rest
  | [] => false

def fmtDomOk : List Char → Bool
  | _ :: rest => fmtDomAux rest
  | [] => false

/-- Match `[\w.-]+@[\w.-]+\.\w+\b` at the head of `cs` (the leading `\b` is
checked by the caller). -/
def fmtEmailHere (cs : List Char) : Bool :=
  let (loc, r1) := takeClass fmtMailChar cs
  !loc.isEmpty &&
    match r1 with
    | '@' :: r2 => fmtDomOk (takeClass fmtMailChar r2).1
    | _ => false

/-- Word-boundary `\b` between an optional previous character and the
current one. -/
def boundaryOk (prev : Option Char) (c : Char) : Bool :=
  match prev with
  | none => isWordChar c
  | some p => isWordChar p != isWordChar c

/-- `re.search(r'\b[\w.-]+@[\w.-]+\.\w+\b', resume_text)`. -/
def fmtEmailAux : List Char → Option Char → Bool
  | [], _ => false
  | c :: rest, prev =>
    (boundaryOk prev c && fmtEmailHere (c :: rest)) || fmtEmailAux rest (some c)

def hasEmailFmt (cs : List Char) : Bool := fmtEmailAux cs none

/-- `[-.]?` of the phone pattern: both greedy alternatives (consumed first). -/
def phoneSepAlts : List Char → List (List Char)
  | c :: r => if c == '-' || c == '.' then [r, c :: r] else [c :: r]
  | [] => [[]]

/-- Match `\d{3}[-.]?\d{3}[-.]?\d{4}\b` at the head (leading `\b` checked by
the caller). -/
def fmtPhoneHere (cs : List Char) : Bool :=
  match digitsN 3 cs with
  | none => false
  | some r1 =>
    (phoneSepAlts r1).any fun r2 =>
      match digitsN 3 r2 with
      | none => false
      | some r3 =>
        (phoneSepAlts r3).any fun r4 =>
          match digitsN 4 r4 with
          | none => false
          | some r5 =>
            match r5 with
            | [] => true
            | d :: _ => !isWordChar d

/-- `re.search(r'\b\d{3}[-.]?\d{3}[-.]?\d{4}\b', resume_text)`. -/
def fmtPhoneAux : List Char → Option Char → Bool
  | [], _ => false
  | c :: rest, prev =>
    (boundaryOk prev c && fmtPhoneHere (c :: rest)) || fmtPhoneAux rest (some c)

def hasPhoneFmt (cs : List Char) : Bool := fmtPhoneAux cs none

/-- `score = max(0, min(100, score))` at the end of `_score_formatting`. -/
def clampScore (x : Int) : Nat := (max 0 (min 100 x)).toNat

/-- The missing-sections deduction of `_score_formatting`. -/
def sectionsDeduct (text : String) : Int :=
  if (requiredSections.filter fun s => hasSub s.data (lcLower text.data)).length < 3 then 20
  else 0

/-- The length deduction of `_score_formatting`. -/
def lengthDeduct (text : String) : Int :=
  let wc := wordCount text.data
  if wc < 200 then 15 else if 2000 < wc then 10 else 0

/-- The missing-email deduction of `_score_formatting`. -/
def emailDeduct (text : String) : Int := if hasEmailFmt text.data then 0 else 10

/-- The missing-phone deduction of `_score_formatting`. -/
def phoneDeduct (text : String) : Int := if hasPhoneFmt text.data then 0 else 5

/-- `ATSScorer._score_formatting` (the unused `section_score` local of the
source is omitted; the returned feedback strings are presentation only and
not modelled).  The deductions are applied to an exact integer and clamped
once at the end, as in the source. -/
def scoreFormatting (text : String) : Nat :=
  clampScore (100 - sectionsDeduct text - hostileLoopDeduct problematicPatterns text.data -
    lengthDeduct text - emailDeduct text - phoneDeduct text)

/-- Match one alternative of `r'\d+%|\$\d+|\d+\+'` at the head of `cs`,
returning the rest after the match. -/
def metricHere (cs : List Char) : Option (List Char) :=
  let (digs, r) := takeClass isDigitC cs
  if !digs.isEmpty then
    match r with
    | '%' :: r2 => some r2
    | '+' :: r2 => some r2
    | _ => none
  else
    match cs with
    | '$' :: r2 =>
      let (digs2, r3) := takeClass isDigitC r2
      if digs2.isEmpty then none else some r3
    | _ => none

/-- `len(re.findall(r'\d+%|\$\d+|\d+\+', resume_text))`. -/
def countMetricsAux : Nat → List Char → Nat
  | 0, _ => 0
  | _, [] => 0
  | fuel + 1, c :: rest =>
    match metricHere (c :: rest) with
    | some after => 1 + countMetricsAux fuel after
    | none => countMetricsAux fuel rest

def countMetrics (cs : List Char) : Nat := countMetricsAux cs.length cs

/-- `ATSScorer._score_experience`. -/
def scoreExperience (text : String) : Nat :=
  let low := lcLower text.data
  let verbs := (actionVerbs.filter fun v => hasSub v.data low).length
  let a := if 8 ≤ verbs then 25 else if 4 ≤ verbs then 15 else 0
  let metrics := countMetrics text.data
  let b := if 3 ≤ metrics then 15 else if 1 ≤ metrics then 8 else 0
  min 100 (60 + a + b)

/-- `re.search(r'(19|20)\d{2}', resume_text)`. -/
def hasYear (cs : List Char) : Bool :=
  anyPos
    (fun t =>
      match t with
      | '1' :: '9' :: a :: b :: _ => isDigitC a && isDigitC b
      | '2' :: '0' :: a :: b :: _ => isDigitC a && isDigitC b
      | _ => false)
    cs

/-- `ATSScorer._score_education`. -/
def scoreEducation (text : String) : Nat :=
  let low := lcLower text.data
  let degreeKeywords := ["bachelor", "master", "phd", "doctorate", "mba",
                         "b.s.", "m.s.", "b.a.", "m.a.", "degree"]
  let eduKeywords := ["university", "college", "institute", "school"]
  let hasDegree := degreeKeywords.any fun k => hasSub k.data low
  let hasInstitution := eduKeywords.any fun k => hasSub k.data low
  min 100 (50 + (if hasDegree then 30 else 0) + (if hasInstitution then 15 else 0) +
    (if hasYear text.data then 5 else 0))

/-- `ATSScorer._score_skills` given the extractor output. -/
def scoreSkills (entries : List SkillsEntry) : Nat :=
  if 15 ≤ (entries.map (·.count)).sum then 95
  else if 10 ≤ (entries.map (·.count)).sum then 85
  else if 5 ≤ (entries.map (·.count)).sum then 70
  else 50

/-- The `keyword_analysis` of `_score_keywords`: the job-description branch
keeps matched/missing keyword lists and the match rate (the source rounds the
displayed rate to one decimal; the exact rate is kept here), the generic
branch keeps the count of common keywords found. -/
inductive KeywordAnalysis where
  | jobBased (matched missing : List String) (rate : ℚ)
  | generic (found : Nat)
deriving Repr, DecidableEq

structure KeywordResult where
  score : Nat
  analysis : KeywordAnalysis
deriving Repr, DecidableEq

/-- Flatten an extractor output to the set of lowercased skills (a Python
`set`, modelled as a deduplicated list). -/
def flatLower (entries : List SkillsEntry) : List String :=
  ((entries.flatMap (·.skills)).map strLower).dedup

/-- `ATSScorer._score_keywords` given the extractor.  The matched/missing
sets are iterated in job-set order (Python set order is unspecified; only
their set of elements is meaningful).  `min(100, int(match_percentage + 20))`
is `matched*100/total + 20` capped, by exact arithmetic. -/
def commonKeywords : List String :=
  ["experience", "developed", "managed", "team", "project",
   "skills", "implemented", "designed", "improved", "led"]

/-- The job-description branch of `_score_keywords` on the two flattened
skill sets. -/
def scoreKeywordsJob (resumeFlat jobFlat : List String) : KeywordResult :=
  { score := min 100 ((jobFlat.filter (resumeFlat.contains ·)).length * 100 /
      jobFlat.length + 20),
    analysis := .jobBased ((jobFlat.filter (resumeFlat.contains ·)).take 15)
      ((jobFlat.filter (!resumeFlat.contains ·)).take 10)
      (((jobFlat.filter (resumeFlat.contains ·)).length * 100 : ℚ) / jobFlat.length) }

def scoreKeywords (resumeText jobDescription : String)
    (ext : String → List SkillsEntry) : KeywordResult :=
  if jobDescription ≠ "" then
    if flatLower (ext jobDescription) ≠ [] then
      scoreKeywordsJob (flatLower (ext resumeText)) (flatLower (ext jobDescription))
    else
      { score := min 100 (50 + 20), analysis := .jobBased [] [] 50 }
  else
    { score := min 100
        ((commonKeywords.filter fun k => hasSub k.data (lcLower resumeText.data)).length
          * 10 + 40),
      analysis := .generic
        (commonKeywords.filter fun k => hasSub k.data (lcLower resumeText.data)).length }

/-- The result of `calculate_ats_score` (recommendations and display labels
are presentation only and omitted). -/
structure AtsResult where
  overallScore : Nat
  keywordsScore : Nat
  formattingScore : Nat
  experienceScore : Nat
  educationScore : Nat
  skillsScore : Nat
  keywordAnalysis : KeywordAnalysis
deriving Repr, DecidableEq

/-- `ATSScorer.calculate_ats_score`, parameterized by the external skill
extractor.  `overall = min(100, max(0, int(Σ score_i * weight_i)))` with the
fixed weights .30/.25/.20/.15/.10 is, in exact arithmetic,
`min 100 ((30k + 25f + 20e + 15d + 10s) / 100)`. -/
def calculateAtsScore (resumeText jobDescription : String)
    (ext : String → List SkillsEntry) : AtsResult :=
  let kw := scoreKeywords resumeText jobDescription ext
  let f := scoreFormatting resumeText
  let e := scoreExperience resumeText
  let d := scoreEducation resumeText
  let s := scoreSkills (ext resumeText)
  { overallScore :=
      min 100 (max 0 ((30 * kw.score + 25 * f + 20 * e + 15 * d + 10 * s) / 100)),
    keywordsScore := kw.score, formattingScore := f, experienceScore := e,
    educationScore := d, skillsScore := s, keywordAnalysis := kw.analysis }

end ATSScorer

namespace Verify

open Resume ATSConverter MissingSkills NLPAnalyzer ATSScorer

/-- The invariant that the walker only ever holds canonical sections. -/
def Canon (st : WalkState) : Prop :=
  (∀ a ∈ keysOf st.m, a ∈ sectionOrder) ∧ st.cs ∈ sectionOrder

end Verify

/-- The job description of the C3 counterexample: the skill "python" first
occurs near "preferred", far (beyond the 300-character window) from the only
occurrence of "required", and occurs a second time right next to
"required". -/
def c3Jd : String :=
  "preferred: python " ++ String.mk (List.replicate 300 'z') ++ " python required"

namespace Verify

open Resume ATSConverter MissingSkills NLPAnalyzer ATSScorer

/-! ## Supporting lemmas for the scorer claims -/

lemma clampScore_le (x : Int) : clampScore x ≤ 100 := by
  unfold clampScore
  omega

lemma scoreKeywords_score_le (rt jd : String) (ext : String → List SkillsEntry) :
    (scoreKeywords rt jd ext).score ≤ 100 := by
  unfold scoreKeywords scoreKeywordsJob
  split
  · split
    · exact min_le_left _ _
    · exact min_le_left _ _
  · exact min_le_left _ _

lemma scoreFormatting_le (t : String) : scoreFormatting t ≤ 100 := clampScore_le _

lemma scoreExperience_le (t : String) : scoreExperience t ≤ 100 := min_le_left _ _

lemma scoreEducation_le (t : String) : scoreEducation t ≤ 100 := min_le_left _ _

lemma scoreSkills_le (es : List SkillsEntry) : scoreSkills es ≤ 100 := by
  unfold scoreSkills
  split
  · omega
  · split
    · omega
    · split <;> omega

lemma hostileLoopDeduct_flat (ps : List (List Char → Bool)) (cs : List Char) :
    hostileLoopDeduct ps cs = if ps.any (fun p => p cs) then 5 else 0 := by
  induction ps with
  | nil => simp [hostileLoopDeduct]
  | cons p rest ih =>
    by_cases h : p cs <;> simp [hostileLoopDeduct, h, ih]

lemma coverageScore_ge (found total : Nat) : 50 ≤ coverageScore found total :=
  le_min (by norm_num) (Nat.le_add_left 50 _)

lemma coverageScore_le (found total : Nat) : coverageScore found total ≤ 100 :=
  min_le_left _ _

end Verify

open Resume ATSConverter MissingSkills NLPAnalyzer ATSScorer Verify

/-- C1: for every resume text, every job description and every possible
output of the external skill extractor, `calculate_ats_score` returns an
`overall_score` that is the weighted sum of the five component scores with
the fixed weights keywords 0.30, formatting 0.25, experience 0.20,
education 0.15, skills 0.10, truncated to an integer and clamped to
[0, 100], and every component score of the breakdown lies in [0, 100]
(scores are `Nat`, so the lower bounds are by type). -/
theorem C1_overall_score_weighted_and_bounded
    (resumeText jobDescription : String) (ext : String → List SkillsEntry) :
    (calculateAtsScore resumeText jobDescription ext).overallScore =
        min 100 (max 0
          ((30 * (calculateAtsScore resumeText jobDescription ext).keywordsScore +
            25 * (calculateAtsScore resumeText jobDescription ext).formattingScore +
            20 * (calculateAtsScore resumeText jobDescription ext).experienceScore +
            15 * (calculateAtsScore resumeText jobDescription ext).educationScore +
            10 * (calculateAtsScore resumeText jobDescription ext).skillsScore) / 100)) ∧
      (calculateAtsScore resumeText jobDescription ext).overallScore ≤ 100 ∧
      (calculateAtsScore resumeText jobDescription ext).keywordsScore ≤ 100 ∧
      (calculateAtsScore resumeText jobDescription ext).formattingScore ≤ 100 ∧
      (calculateAtsScore resumeText jobDescription ext).experienceScore ≤ 100 ∧
      (calculateAtsScore resumeText jobDescription ext).educationScore ≤ 100 ∧
      (calculateAtsScore resumeText jobDescription ext).skillsScore ≤ 100 := by
  refine ⟨rfl, min_le_left _ _, scoreKeywords_score_le _ _ _, scoreFormatting_le _,
    scoreExperience_le _, scoreEducation_le _, scoreSkills_le _⟩

/-- C7: every category entry reported by `extract_skills` carries the
coverage score `min(100, (found / |category|) * 100 + 50)` (exact truncated
arithmetic), hence every reported category score lies in [50, 100]. -/
theorem C7_coverage_score_formula_and_band
    (ms : List (String × String)) (entry : SkillsEntry)
    (h : entry ∈ extractSkillsFromMatches ms) :
    entry.score =
        min 100 (entry.count * 100 / max (NLPAnalyzer.dbSize entry.category) 1 + 50) ∧
      50 ≤ entry.score ∧ entry.score ≤ 100 := by
  unfold extractSkillsFromMatches at h
  rcases List.mem_map.1 h with ⟨p, _, rfl⟩
  exact ⟨rfl, coverageScore_ge _ _, coverageScore_le _ _⟩

/-- Witness for C7 at a concrete match list. -/
theorem C7_coverage_score_witness :
    (⟨"programming_languages", ["Python"], 1, 55⟩ : SkillsEntry) ∈
        extractSkillsFromMatches [("programming_languages", "python")] ∧
      ((⟨"programming_languages", ["Python"], 1, 55⟩ : SkillsEntry).score =
          min 100 ((⟨"programming_languages", ["Python"], 1, 55⟩ : SkillsEntry).count * 100 /
            max (NLPAnalyzer.dbSize
              (⟨"programming_languages", ["Python"], 1, 55⟩ : SkillsEntry).category) 1 + 50) ∧
        50 ≤ (⟨"programming_languages", ["Python"], 1, 55⟩ : SkillsEntry).score ∧
        (⟨"programming_languages", ["Python"], 1, 55⟩ : SkillsEntry).score ≤ 100) :=
  ⟨by decide, C7_coverage_score_formula_and_band [("programming_languages", "python")] _
    (by decide)⟩

/-- C8: the ATS-hostile-pattern deduction of the formatting sub-score is a
single flat 5-point deduction: the pattern loop deducts 5 exactly when some
hostile pattern occurs, however many patterns or occurrences there are. -/
theorem C8_hostile_deduction_applied_once (text : String) :
    scoreFormatting text =
        clampScore (100 - sectionsDeduct text -
          ((if problematicPatterns.any (fun p => p text.data) then 5 else 0 : Nat) : Int) -
          lengthDeduct text - emailDeduct text - phoneDeduct text) ∧
      hostileLoopDeduct problematicPatterns text.data =
        (if problematicPatterns.any (fun p => p text.data) then 5 else 0) := by
  constructor
  · unfold scoreFormatting
    rw [hostileLoopDeduct_flat]
  · exact hostileLoopDeduct_flat _ _

/-- C10: with a non-empty job description from which the extractor finds no
skills, the keyword sub-score neither fails nor scores zero: the match
percentage defaults to 50, the score is exactly 70, and the matched and
missing keyword lists of the analysis are empty. -/
theorem C10_keywords_default_without_job_skills
    (resumeText jobDescription : String) (ext : String → List SkillsEntry)
    (hj : jobDescription ≠ "") (he : flatLower (ext jobDescription) = []) :
    scoreKeywords resumeText jobDescription ext =
        { score := 70, analysis := .jobBased [] [] 50 } ∧
      (calculateAtsScore resumeText jobDescription ext).keywordsScore = 70 := by
  have h1 : scoreKeywords resumeText jobDescription ext =
      { score := 70, analysis := .jobBased [] [] 50 } := by
    unfold scoreKeywords
    rw [if_pos hj]
    simp only [he]
    norm_num
  refine ⟨h1, ?_⟩
  show (scoreKeywords resumeText jobDescription ext).score = 70
  rw [h1]

/-- Witness for C10 at a concrete job description and extractor. -/
theorem C10_keywords_default_witness :
    scoreKeywords "" "x" (fun _ => []) = { score := 70, analysis := .jobBased [] [] 50 } ∧
      (calculateAtsScore "" "x" (fun _ => [])).keywordsScore = 70 :=
  C10_keywords_default_without_job_skills "" "x" (fun _ => []) (by decide) rfl

namespace Verify

/-! ## Supporting lemmas for the gap-analyzer claims -/

lemma mem_extractSkillsFromText (t s : String) :
    s ∈ extractSkillsFromText t ↔
      s ∈ skillsDatabase.flatMap (·.2) ∧
        skillMentioned (lcLower t.data) (lcLower s.data) = true := by
  unfold extractSkillsFromText
  simp [List.mem_dedup, List.mem_filter]

lemma mem_categorize_union (skills : List String) (jd : String) (s : String) :
    (s ∈ (categorizeByImportance skills jd).1 ∨
      s ∈ (categorizeByImportance skills jd).2.1 ∨
      s ∈ (categorizeByImportance skills jd).2.2) ↔ s ∈ skills := by
  induction skills with
  | nil => simp [categorizeByImportance]
  | cons a tl ih =>
    simp only [categorizeByImportance, List.foldr_cons] at ih ⊢
    rcases hc : classifySkill a (lcLower jd.data) <;>
      simp only [hc, List.mem_cons] <;>
      tauto

end Verify

/-- C9: the gap analyzer's taxonomy matching is boundary-respecting: for any
text that contains "javascript" but no boundary-delimited occurrence of
"java", the skill "Java" is not reported as found. -/
theorem C9_java_not_matched_inside_javascript (t : String)
    (_hjs : hasSub "javascript".data (lcLower t.data) = true)
    (hfree : skillMentioned (lcLower t.data) "java".data = false) :
    "Java" ∉ extractSkillsFromText t := by
  intro hmem
  have h := (Verify.mem_extractSkillsFromText t "Java").1 hmem
  have hl : lcLower (String.data "Java") = String.data "java" := by decide
  rw [hl, hfree] at h
  exact absurd h.2 (by simp)

/-- Witness for C9 at a concrete text containing "javascript". -/
theorem C9_java_witness :
    hasSub "javascript".data (lcLower "expert in javascript development".data) = true ∧
      skillMentioned (lcLower "expert in javascript development".data) "java".data = false ∧
      "Java" ∉ extractSkillsFromText "expert in javascript development" :=
  ⟨by decide, by decide,
    C9_java_not_matched_inside_javascript "expert in javascript development"
      (by decide) (by decide)⟩

/-- C2: with a job description of at least 20 stripped characters, every
member of the gap analyzer's matched list is a job-description skill present
(case-insensitively) in the resume skills, and the union of the critical,
recommended and soft missing lists before truncation is exactly the set of
job-description skills not present in the resume skills. -/
theorem C2_matched_subset_and_missing_union
    (resumeSkills : List String) (jobDescription : String)
    (h : 20 ≤ (strStrip jobDescription).length) :
    (∀ s ∈ (analyze resumeSkills jobDescription).matchedSkillsList,
        s ∈ extractSkillsFromText jobDescription ∧
          (resumeSkills.map strLower).contains (strLower s) = true) ∧
      (∀ s : String,
        (s ∈ (analyze resumeSkills jobDescription).criticalFull ∨
          s ∈ (analyze resumeSkills jobDescription).recommendedFull ∨
          s ∈ (analyze resumeSkills jobDescription).softFull) ↔
        (s ∈ extractSkillsFromText jobDescription ∧
          (resumeSkills.map strLower).contains (strLower s) = false)) := by
  have hnb : ¬ ((strStrip jobDescription).length < 20) := by omega
  unfold analyze
  rw [if_neg hnb]
  dsimp only
  constructor
  · intro s hs
    simp only [List.mem_append, List.mem_filter] at hs
    rcases hs with (⟨hm, hc⟩ | ⟨hm, hc⟩) | ⟨hm, hc⟩ <;>
      exact ⟨(Verify.mem_categorize_union _ _ s).1 (by tauto), hc⟩
  · intro s
    simp only [List.mem_filter, Bool.not_eq_true']
    constructor
    · rintro (⟨hm, hc⟩ | ⟨hm, hc⟩ | ⟨hm, hc⟩) <;>
        exact ⟨(Verify.mem_categorize_union _ _ s).1 (by tauto), hc⟩
    · rintro ⟨hm, hc⟩
      rcases (Verify.mem_categorize_union (extractSkillsFromText jobDescription)
          jobDescription s).2 hm with h1 | h1 | h1 <;> tauto

/-- Witness for C2 at a concrete resume-skill list and job description. -/
theorem C2_matched_missing_witness :
    20 ≤ (strStrip "Python and Django required").length ∧
      ((∀ s ∈ (analyze ["Python"] "Python and Django required").matchedSkillsList,
          s ∈ extractSkillsFromText "Python and Django required" ∧
            ((["Python"] : List String).map strLower).contains (strLower s) = true) ∧
        (∀ s : String,
          (s ∈ (analyze ["Python"] "Python and Django required").criticalFull ∨
            s ∈ (analyze ["Python"] "Python and Django required").recommendedFull ∨
            s ∈ (analyze ["Python"] "Python and Django required").softFull) ↔
          (s ∈ extractSkillsFromText "Python and Django required" ∧
            ((["Python"] : List String).map strLower).contains (strLower s) = false))) :=
  ⟨by decide, C2_matched_subset_and_missing_union ["Python"] "Python and Django required"
    (by decide)⟩

/-- C4 counterexample: the degraded suggestion lists are not one fixed set
for every resume-skill list — a resume already containing "docker" receives
a different critical list than an empty resume. -/
theorem C4_fixed_set_counterexample :
    (analyze [] "").critical = ["Docker", "Kubernetes", "CI/CD", "AWS", "Git"] ∧
      (analyze ["docker"] "").critical = ["Kubernetes", "CI/CD", "AWS", "Git", "REST API"] ∧
      (analyze [] "").critical ≠ (analyze ["docker"] "").critical := by
  exact ⟨by decide, by decide, by decide⟩

/-- C4 (amended): for every resume-skill list, a job description under 20
stripped characters makes `analyze` return (without raising — the function
is total) the degraded result: `has_job_description = false`,
`match_percentage = 0`, `total_job_skills = 0`, an empty matched list, and
the generic suggestion pools filtered by the skills already present
(case-insensitively) in the resume, truncated to 5/4/3. -/
theorem C4_short_job_description_defaults
    (resumeSkills : List String) (jobDescription : String)
    (h : (strStrip jobDescription).length < 20) :
    analyze resumeSkills jobDescription = getDefaultSuggestions resumeSkills ∧
      (analyze resumeSkills jobDescription).hasJobDescription = false ∧
      (analyze resumeSkills jobDescription).matchPercentage = 0 ∧
      (analyze resumeSkills jobDescription).totalJobSkills = 0 ∧
      (analyze resumeSkills jobDescription).matchedSkillsList = [] ∧
      (analyze resumeSkills jobDescription).critical =
        (commonCritical.filter fun s =>
          !(resumeSkills.map strLower).contains (strLower s)).take 5 ∧
      (analyze resumeSkills jobDescription).recommended =
        (commonRecommended.filter fun s =>
          !(resumeSkills.map strLower).contains (strLower s)).take 4 ∧
      (analyze resumeSkills jobDescription).soft =
        (commonSoft.filter fun s =>
          !(resumeSkills.map strLower).contains (strLower s)).take 3 := by
  unfold analyze
  rw [if_pos h]
  exact ⟨rfl, rfl, rfl, rfl, rfl, rfl, rfl, rfl⟩

/-- Witness for C4 (amended) at a concrete resume-skill list. -/
theorem C4_short_job_description_witness :
    analyze ["docker"] "" = getDefaultSuggestions ["docker"] ∧
      (analyze ["docker"] "").hasJobDescription = false ∧
      (analyze ["docker"] "").matchPercentage = 0 ∧
      (analyze ["docker"] "").totalJobSkills = 0 ∧
      (analyze ["docker"] "").matchedSkillsList = [] ∧
      (analyze ["docker"] "").critical =
        (commonCritical.filter fun s =>
          !((["docker"] : List String).map strLower).contains (strLower s)).take 5 ∧
      (analyze ["docker"] "").recommended =
        (commonRecommended.filter fun s =>
          !((["docker"] : List String).map strLower).contains (strLower s)).take 4 ∧
      (analyze ["docker"] "").soft =
        (commonSoft.filter fun s =>
          !((["docker"] : List String).map strLower).contains (strLower s)).take 3 := by
  have h := C4_short_job_description_defaults ["docker"] "" (by decide)
  exact h

namespace Verify

/-! ## Supporting lemmas for the segmenter claims -/

lemma identifyKw_protected {isUp tl : Bool} {n : Nat} {nr cs : List Char} {sec : String}
    {kws : List String} {s : String}
    (h : identifyKw true isUp tl n nr cs sec kws = some s) :
    s = sec ∧ (isUp || kws.any fun kw => rule1 kw.data cs) = true := by
  induction kws with
  | nil => simp [identifyKw] at h
  | cons kw rest ih =>
    unfold identifyKw at h
    by_cases h1 : rule1 kw.data cs
    · rw [if_pos h1] at h
      cases h
      exact ⟨rfl, by simp [h1]⟩
    · rw [if_neg h1] at h
      by_cases hu : isUp = true
      · subst hu
        simp only [Bool.not_true, Bool.and_false, if_false] at h
        split at h <;> [skip; split at h] <;>
          first
            | (cases h; exact ⟨rfl, by simp⟩)
            | (rcases ih h with ⟨rfl, _⟩; exact ⟨rfl, by simp⟩)
      · have hu' : isUp = false := by
          cases isUp
          · rfl
          · exact absurd rfl hu
        subst hu'
        simp only [Bool.not_false, Bool.and_true, if_true] at h
        split at h <;> [skip; split at h]
        · rcases ih h with ⟨rfl, hb⟩
          refine ⟨rfl, ?_⟩
          simp only [Bool.false_or] at hb ⊢
          simp [List.any_cons, hb]
        · rcases ih h with ⟨rfl, hb⟩
          refine ⟨rfl, ?_⟩
          simp only [Bool.false_or] at hb ⊢
          simp [List.any_cons, hb]
        · rcases ih h with ⟨rfl, hb⟩
          refine ⟨rfl, ?_⟩
          simp only [Bool.false_or] at hb ⊢
          simp [List.any_cons, hb]
end Verify

namespace Verify

lemma identifyGo_protected {isUp tl : Bool} {n : Nat} {nr cs : List Char}
    {tbl : List (String × List String)} {s : String}
    (h : identifyGo true isUp tl n nr cs tbl = some s) :
    ∃ p ∈ tbl, s = p.1 ∧ (isUp || p.2.any fun kw => rule1 kw.data cs) = true := by
  induction tbl with
  | nil => simp [identifyGo] at h
  | cons p rest ih =>
    unfold identifyGo at h
    rcases hk : identifyKw true isUp tl n nr cs p.1 p.2 with _ | s'
    · rw [hk] at h
      rcases ih h with ⟨q, hq, rfl, hb⟩
      exact ⟨q, List.mem_cons_of_mem _ hq, rfl, hb⟩
    · rw [hk] at h
      cases h
      rcases identifyKw_protected hk with ⟨rfl, hb⟩
      exact ⟨p, List.mem_cons_self _ _, rfl, hb⟩

end Verify

/-- C5 counterexample: the title-case line "Experience" is honored as a
section header under protected-zone matching although it is not fully
capitalized (the exact-keyword rule of `_identify_section` skips the
protected-zone capitalization check). -/
theorem C5_protected_zone_counterexample :
    identifySection "Experience" true = some "experience" ∧
      pyIsUpper (lcStrip "Experience".data) = false :=
  ⟨by decide, by decide⟩

/-- C5 (amended): in the protected zone, a line honored as a section header
is either fully capitalized or an exact (case/punctuation-insensitive)
keyword match; only the symbol-wrapped and keyword-in-title-case candidate
rules require full capitalization there. -/
theorem C5_protected_zone_requires_caps_or_exact (line : String) (sec : String)
    (h : identifySection line true = some sec) :
    pyIsUpper (lcStrip line.data) = true ∨
      ∃ kws, (sec, kws) ∈ sectionKeywords ∧
        ∃ kw ∈ kws, rule1 kw.data (lcStrip line.data) = true := by
  unfold identifySection at h
  dsimp only at h
  split at h
  · exact absurd h (by simp)
  · split at h
    · exact absurd h (by simp)
    · rcases Verify.identifyGo_protected h with ⟨p, hp, rfl, hb⟩
      rw [Bool.or_eq_true] at hb
      rcases hb with hu | ha
      · exact Or.inl hu
      · rcases List.any_eq_true.1 ha with ⟨kw, hkw, hr⟩
        exact Or.inr ⟨p.2, hp, kw, hkw, hr⟩

/-- Witness for C5 (amended) at a concrete protected-zone header line. -/
theorem C5_protected_zone_witness :
    identifySection "EXPERIENCE" true = some "experience" ∧
      (pyIsUpper (lcStrip "EXPERIENCE".data) = true ∨
        ∃ kws, ("experience", kws) ∈ sectionKeywords ∧
          ∃ kw ∈ kws, rule1 kw.data (lcStrip "EXPERIENCE".data) = true) :=
  ⟨by decide, C5_protected_zone_requires_caps_or_exact "EXPERIENCE" "experience" (by decide)⟩

set_option maxRecDepth 40000 in
/-- C3 counterexample: the analyzer classifies "Python" in `c3Jd` as
`recommended`, although the nearest occurrence of the skill to a
required-class keyword lies well inside the 300-character window — the code
compares only first occurrences, not nearest ones. -/
theorem C3_nearest_occurrence_counterexample :
    classifySkill "Python" (lcLower c3Jd.data) = .recommended ∧
      nearestOccNear (lcLower c3Jd.data) (lcLower "Python".data) requiredKeywords = true ∧
      skillMentioned (lcLower c3Jd.data) (lcLower "Python".data) = true ∧
      softSkillsList.contains "Python" = false :=
  ⟨by decide, by decide, by decide, by decide⟩

/-- C3 (amended): for a non-soft-skill taxonomy skill, the analyzer
classifies it as critical exactly when the skill's first occurrence lies
within 300 characters of the first occurrence of some required-class
keyword, or of neither keyword class; and as recommended exactly when it is
not within the window of a first required-class occurrence but is within
the window of a first preferred-class occurrence. -/
theorem C3_first_occurrence_classification (jobDescription : String) (skl : String)
    (hsoft : softSkillsList.contains skl = false) :
    (classifySkill skl (lcLower jobDescription.data) = .critical ↔
        (firstOccNear (lcLower jobDescription.data) (lcLower skl.data) requiredKeywords = true ∨
          (firstOccNear (lcLower jobDescription.data) (lcLower skl.data) requiredKeywords
              = false ∧
            firstOccNear (lcLower jobDescription.data) (lcLower skl.data) preferredKeywords
              = false))) ∧
      (classifySkill skl (lcLower jobDescription.data) = .recommended ↔
        (firstOccNear (lcLower jobDescription.data) (lcLower skl.data) requiredKeywords
            = false ∧
          firstOccNear (lcLower jobDescription.data) (lcLower skl.data) preferredKeywords
            = true)) := by
  unfold classifySkill
  simp only [hsoft, Bool.false_eq_true, if_false]
  by_cases h1 : firstOccNear (lcLower jobDescription.data) (lcLower skl.data)
      requiredKeywords = true
  · simp [h1]
  · have h1' : firstOccNear (lcLower jobDescription.data) (lcLower skl.data)
        requiredKeywords = false := by
      cases hx : firstOccNear (lcLower jobDescription.data) (lcLower skl.data)
          requiredKeywords
      · rfl
      · exact absurd hx h1
    by_cases h2 : firstOccNear (lcLower jobDescription.data) (lcLower skl.data)
        preferredKeywords = true
    · simp [h1', h2]
    · have h2' : firstOccNear (lcLower jobDescription.data) (lcLower skl.data)
          preferredKeywords = false := by
        cases hx : firstOccNear (lcLower jobDescription.data) (lcLower skl.data)
            preferredKeywords
        · rfl
        · exact absurd hx h2
      simp [h1', h2']

/-- Witness for C3 (amended) at a concrete job description and skill. -/
theorem C3_first_occurrence_witness :
    (classifySkill "Python" (lcLower "python preferred".data) = .critical ↔
        (firstOccNear (lcLower "python preferred".data) (lcLower "Python".data)
            requiredKeywords = true ∨
          (firstOccNear (lcLower "python preferred".data) (lcLower "Python".data)
              requiredKeywords = false ∧
            firstOccNear (lcLower "python preferred".data) (lcLower "Python".data)
              preferredKeywords = false))) ∧
      (classifySkill "Python" (lcLower "python preferred".data) = .recommended ↔
        (firstOccNear (lcLower "python preferred".data) (lcLower "Python".data)
            requiredKeywords = false ∧
          firstOccNear (lcLower "python preferred".data) (lcLower "Python".data)
            preferredKeywords = true)) :=
  C3_first_occurrence_classification "python preferred" "Python" (by decide)

namespace Verify

/-! ## Supporting lemmas for the segmentation round trip (C6) -/

lemma mem_keysOf_alSet {m : SectionMap} {k a : String} {v : List String} :
    a ∈ keysOf (alSet m k v) ↔ a ∈ keysOf m ∨ a = k := by
  unfold alSet keysOf
  split
  · rename_i hany
    rw [List.map_map]
    have hkeys : m.map ((·.1) ∘ fun p => if p.1 == k then (k, v) else p) = m.map (·.1) := by
      refine List.map_congr_left fun p _ => ?_
      by_cases hb : p.1 == k
      · simp only [Function.comp, hb, if_pos]
        exact (beq_iff_eq.1 hb).symm
      · simp [Function.comp, hb]
    rw [hkeys]
    constructor
    · exact Or.inl
    · rintro (h | rfl)
      · exact h
      · rcases List.any_eq_true.1 hany with ⟨p, hp, hb⟩
        exact List.mem_map.2 ⟨p, hp, beq_iff_eq.1 hb⟩
  · simp [List.mem_append]

lemma self_mem_keysOf_alSet {m : SectionMap} {k : String} {v : List String} :
    k ∈ keysOf (alSet m k v) :=
  mem_keysOf_alSet.2 (Or.inr rfl)

lemma keys_alSet_mono {m : SectionMap} {k a : String} {v : List String}
    (h : a ∈ keysOf m) : a ∈ keysOf (alSet m k v) :=
  mem_keysOf_alSet.2 (Or.inl h)

lemma keys_flushInto_mono {st : WalkState} {a : String} (h : a ∈ keysOf st.m) :
    a ∈ keysOf (flushInto st) := by
  unfold flushInto
  split
  · exact h
  · split <;> exact keys_alSet_mono h

lemma mem_keysOf_flushInto {st : WalkState} {a : String}
    (h : a ∈ keysOf (flushInto st)) : a ∈ keysOf st.m ∨ a = st.cs := by
  unfold flushInto at h
  split at h
  · exact Or.inl h
  · split at h
    · rename_i hcontact
      rcases mem_keysOf_alSet.1 h with h1 | rfl
      · exact Or.inl h1
      · exact Or.inr (beq_iff_eq.1 hcontact).symm
    · exact mem_keysOf_alSet.1 h

lemma cs_mem_flushInto {st : WalkState} (h : ¬ st.cc.isEmpty = true) :
    st.cs ∈ keysOf (flushInto st) := by
  unfold flushInto
  rw [if_neg h]
  split
  · rename_i hcontact
    rw [beq_iff_eq.1 hcontact]
    exact self_mem_keysOf_alSet
  · exact self_mem_keysOf_alSet

lemma keys_step_mono {st : WalkState} {l : String} {a : String} (h : a ∈ keysOf st.m) :
    a ∈ keysOf (step st l).m := by
  unfold step
  dsimp only
  split
  · exact h
  · split
    · exact keys_flushInto_mono h
    · exact h

lemma keys_foldl_mono (ls : List String) :
    ∀ (st : WalkState) (a : String), a ∈ keysOf st.m →
      a ∈ keysOf (List.foldl step st ls).m := by
  induction ls with
  | nil => exact fun st a h => h
  | cons l tl ih => exact fun st a h => ih (step st l) a (keys_step_mono h)

lemma keys_finishWalk_mono {st : WalkState} {a : String} (h : a ∈ keysOf st.m) :
    a ∈ keysOf (finishWalk st) := by
  unfold finishWalk
  split
  · exact h
  · exact keys_alSet_mono h

lemma cs_mem_finishWalk {st : WalkState} (h : ¬ st.cc.isEmpty = true) :
    st.cs ∈ keysOf (finishWalk st) := by
  unfold finishWalk
  rw [if_neg h]
  exact self_mem_keysOf_alSet

lemma cs_mem_run (ls : List String) :
    ∀ st : WalkState, ¬ st.cc.isEmpty = true →
      st.cs ∈ keysOf (finishWalk (List.foldl step st ls)) := by
  induction ls with
  | nil => exact fun st h => cs_mem_finishWalk h
  | cons l tl ih =>
    intro st h
    rw [List.foldl_cons]
    show st.cs ∈ keysOf (finishWalk (List.foldl step (step st l) tl))
    unfold step
    dsimp only
    split
    · exact ih st h
    · split
      · exact keys_finishWalk_mono (keys_foldl_mono tl _ _ (cs_mem_flushInto h))
      · exact ih _ (by simp)

end Verify

namespace Verify

lemma headerFacts :
    ∀ k ∈ sectionOrder, ∀ b : Bool,
      strStrip (strUpper k) = strUpper k ∧
        ((strUpper k == "") || isGarbageLine (strUpper k)) = false ∧
        identifySection (strUpper k) b = some k := by decide

lemma underlineFacts :
    ∀ k ∈ sectionOrder, ∀ b : Bool,
      strStrip (underlineOf k) = underlineOf k ∧
        ((underlineOf k == "") || isGarbageLine (underlineOf k)) = false ∧
        identifySection (underlineOf k) b = none := by decide

lemma step_skipped {st : WalkState} {l : String}
    (h : ((strStrip l == "") || isGarbageLine (strStrip l)) = true) : step st l = st := by
  unfold step
  dsimp only
  rw [if_pos h]

lemma step_empty (st : WalkState) : step st "" = st :=
  step_skipped (by decide)

lemma step_header {st : WalkState} {k : String} (hk : k ∈ sectionOrder)
    (hcnt : 1 ≤ st.cnt) :
    step st (strUpper k) =
      { cs := k, cc := [], m := flushInto { st with cnt := st.cnt + 1 },
        cnt := st.cnt + 1 } := by
  obtain ⟨hstrip, hskip, hid⟩ := headerFacts k hk (decide (st.cnt + 1 < 5))
  unfold step
  dsimp only
  rw [hstrip, if_neg (by simp [hskip]), hid]
  have hone : (st.cnt + 1 == 1) = false := by
    have : st.cnt + 1 ≠ 1 := by omega
    simpa using this
  rw [hone]
  rfl

lemma step_content {st : WalkState} {l : String}
    (hstrip : strStrip l = l)
    (hskip : ((l == "") || isGarbageLine l) = false)
    (hid : ∀ b : Bool, identifySection l b = none) :
    step st l = { st with cc := st.cc ++ [l], cnt := st.cnt + 1 } := by
  unfold step
  dsimp only
  rw [hstrip, if_neg (by simp [hskip]), hid]
  rw [ite_self]

lemma cnt_step_le (st : WalkState) (l : String) : st.cnt ≤ (step st l).cnt := by
  unfold step
  dsimp only
  split
  · exact le_refl _
  · split <;> exact Nat.le_succ _

lemma cnt_foldl_le (ls : List String) :
    ∀ st : WalkState, st.cnt ≤ (List.foldl step st ls).cnt := by
  induction ls with
  | nil => exact fun st => le_refl _
  | cons l tl ih =>
    exact fun st => le_trans (cnt_step_le st l) (ih (step st l))

lemma foldl_empties (es : List String) (h : ∀ e ∈ es, e = "") :
    ∀ st : WalkState, List.foldl step st es = st := by
  induction es with
  | nil => exact fun st => rfl
  | cons e tl ih =>
    intro st
    rw [List.foldl_cons, h e (List.mem_cons_self _ _), step_empty]
    exact ih (fun x hx => h x (List.mem_cons_of_mem _ hx)) st

lemma joinBlankSep_cons_cons (p q : List String) (ps : List (List String)) :
    joinBlankSep (p :: q :: ps) = p ++ [""] ++ joinBlankSep (q :: ps) := rfl

lemma dropTrailing_spec (l : List String) :
    ∃ es, l = (l.reverse.dropWhile (· == "")).reverse ++ es ∧ ∀ e ∈ es, e = "" := by
  refine ⟨(l.reverse.takeWhile (· == "")).reverse, ?_, ?_⟩
  · have h1 : l.reverse =
        l.reverse.takeWhile (· == "") ++ l.reverse.dropWhile (· == "") :=
      (List.takeWhile_append_dropWhile _ _).symm
    calc l = l.reverse.reverse := (List.reverse_reverse l).symm
      _ = (l.reverse.takeWhile (· == "") ++ l.reverse.dropWhile (· == "")).reverse := by
          rw [← h1]
      _ = (l.reverse.dropWhile (· == "")).reverse ++ (l.reverse.takeWhile (· == "")).reverse :=
          List.reverse_append _ _
  · intro e he
    have := List.mem_takeWhile_imp (List.mem_reverse.1 he)
    exact beq_iff_eq.1 this

end Verify

namespace Verify

lemma identifyKw_eq_sec {prot isUp tl : Bool} {n : Nat} {nr cs : List Char} {sec : String}
    {kws : List String} {s : String}
    (h : identifyKw prot isUp tl n nr cs sec kws = some s) : s = sec := by
  induction kws with
  | nil => simp [identifyKw] at h
  | cons kw rest ih =>
    unfold identifyKw at h
    dsimp only at h
    by_cases h1 : rule1 kw.data cs = true
    · rw [if_pos h1] at h
      cases h; rfl
    · rw [if_neg h1] at h
      by_cases h2 : rule2 kw.data cs = true
      · rw [if_pos h2] at h
        by_cases hp : (prot && !isUp) = true
        · rw [if_pos hp] at h
          exact ih h
        · rw [if_neg hp] at h
          cases h; rfl
      · rw [if_neg h2] at h
        by_cases h3 : rule3 kw.data tl n nr = true
        · rw [if_pos h3] at h
          by_cases hp : (prot && !isUp) = true
          · rw [if_pos hp] at h
            exact ih h
          · rw [if_neg hp] at h
            cases h; rfl
        · rw [if_neg h3] at h
          exact ih h

lemma identifyGo_sec_mem {prot isUp tl : Bool} {n : Nat} {nr cs : List Char}
    {tbl : List (String × List String)} {s : String}
    (h : identifyGo prot isUp tl n nr cs tbl = some s) : ∃ p ∈ tbl, s = p.1 := by
  induction tbl with
  | nil => simp [identifyGo] at h
  | cons p rest ih =>
    unfold identifyGo at h
    split at h
    · rename_i hk
      cases h
      exact ⟨p, List.mem_cons_self _ _, identifyKw_eq_sec hk⟩
    · rcases ih h with ⟨q, hq, rfl⟩
      exact ⟨q, List.mem_cons_of_mem _ hq, rfl⟩

lemma identifySection_mem_order {l : String} {b : Bool} {s : String}
    (h : identifySection l b = some s) : s ∈ sectionOrder := by
  unfold identifySection at h
  dsimp only at h
  split at h
  · exact absurd h (by simp)
  · split at h
    · exact absurd h (by simp)
    · rcases identifyGo_sec_mem h with ⟨p, hp, rfl⟩
      have : ∀ q ∈ sectionKeywords, q.1 ∈ sectionOrder := by decide
      exact this p hp

lemma canon_step {st : WalkState} {l : String} (h : Canon st) : Canon (step st l) := by
  obtain ⟨hm, hcs⟩ := h
  unfold step
  dsimp only
  split
  · exact ⟨hm, hcs⟩
  · split
    · rename_i sec heq
      constructor
      · intro a ha
        rcases mem_keysOf_flushInto ha with h1 | rfl
        · exact hm a h1
        · exact hcs
      · have : identifySection (strStrip l) (decide (st.cnt + 1 < 5)) = some sec := by
          split at heq
          · exact absurd heq (by simp)
          · exact heq
        exact identifySection_mem_order this
    · exact ⟨hm, hcs⟩

lemma canon_foldl (ls : List String) :
    ∀ st : WalkState, Canon st → Canon (List.foldl step st ls) := by
  induction ls with
  | nil => exact fun st h => h
  | cons l tl ih => exact fun st h => ih (step st l) (canon_step h)

lemma canon_finishWalk {st : WalkState} (h : Canon st) :
    ∀ a ∈ keysOf (finishWalk st), a ∈ sectionOrder := by
  intro a ha
  unfold finishWalk at ha
  split at ha
  · exact h.1 a ha
  · rcases mem_keysOf_alSet.1 ha with h1 | rfl
    · exact h.1 a h1
    · exact h.2

lemma extract_keys_canonical (lines : List String) :
    ∀ a ∈ keysOf (extractSections lines), a ∈ sectionOrder := by
  intro a ha
  unfold extractSections at ha
  dsimp only at ha
  rcases mem_keysOf_alSet.1 ha with h1 | rfl
  · refine canon_finishWalk ?_ a h1
    refine canon_foldl lines _ ?_
    constructor
    · intro x hx
      have : x = "contact" := by
        simpa [keysOf] using hx
      rw [this]
      decide
    · show ("contact" : String) ∈ sectionOrder
      decide
  · decide

lemma alHas_iff_mem_keys (m : SectionMap) (k : String) :
    alHas m k = true ↔ k ∈ keysOf m := by
  unfold alHas keysOf
  rw [List.any_eq_true]
  constructor
  · rintro ⟨p, hp, hb⟩
    exact List.mem_map.2 ⟨p, hp, beq_iff_eq.1 hb⟩
  · rintro h
    rcases List.mem_map.1 h with ⟨p, hp, rfl⟩
    exact ⟨p, hp, beq_self_eq_true _⟩

lemma contact_mem_extract (lines : List String) :
    "contact" ∈ keysOf (extractSections lines) := by
  unfold extractSections
  dsimp only
  exact self_mem_keysOf_alSet

end Verify

namespace Verify

lemma foldl_block (k0 : String) (hk0 : k0 ∈ sectionOrder) (content tail : List String)
    (st : WalkState) (hcnt : 1 ≤ st.cnt) :
    List.foldl step st (renderBlock k0 content ++ tail) =
      List.foldl step
        { cs := k0, cc := [underlineOf k0], m := flushInto { st with cnt := st.cnt + 1 },
          cnt := st.cnt + 2 }
        ((if content.isEmpty then [""] else content) ++ tail) := by
  have h1 : renderBlock k0 content ++ tail =
      strUpper k0 :: underlineOf k0 ::
        ((if content.isEmpty then [""] else content) ++ tail) := by
    simp [renderBlock]
  rw [h1, List.foldl_cons, List.foldl_cons, step_header hk0 hcnt,
    step_content ((underlineFacts k0 hk0 true).1) ((underlineFacts k0 hk0 true).2.1)
      (fun b => (underlineFacts k0 hk0 b).2.2)]
  rfl

lemma run_blocks (vs : String → List String) (ks : List String) :
    ∀ st : WalkState, 1 ≤ st.cnt → (∀ j ∈ ks, j ∈ sectionOrder) →
      ∀ k ∈ ks,
        k ∈ keysOf (finishWalk (List.foldl step st
          (joinBlankSep (ks.map fun j => renderBlock j (vs j))))) := by
  induction ks with
  | nil =>
    intro st _ _ k hk
    simp at hk
  | cons k0 rest ih =>
    intro st hcnt hord k hk
    have hk0 : k0 ∈ sectionOrder := hord k0 (List.mem_cons_self _ _)
    cases rest with
    | nil =>
      have hkk : k = k0 := by simpa using hk
      subst hkk
      have hsh : joinBlankSep ([k].map fun j => renderBlock j (vs j)) =
          renderBlock k (vs k) ++ [] := by
        simp [joinBlankSep]
      rw [hsh, foldl_block k hk0 _ _ st hcnt]
      exact cs_mem_run _ _ (by simp)
    | cons r rs =>
      have hsh : joinBlankSep ((k0 :: r :: rs).map fun j => renderBlock j (vs j)) =
          renderBlock k0 (vs k0) ++
            ([""] ++ joinBlankSep ((r :: rs).map fun j => renderBlock j (vs j))) := by
        simp only [List.map_cons]
        rw [joinBlankSep_cons_cons, List.append_assoc]
      rw [hsh, foldl_block k0 hk0 _ _ st hcnt]
      rcases List.mem_cons.1 hk with rfl | hkrest
      · exact cs_mem_run _ _ (by simp)
      · rw [show ((if (vs k0).isEmpty then [""] else vs k0) ++
            ([""] ++ joinBlankSep ((r :: rs).map fun j => renderBlock j (vs j)))) =
            (((if (vs k0).isEmpty then [""] else vs k0) ++ [""]) ++
              joinBlankSep ((r :: rs).map fun j => renderBlock j (vs j))) from by
          rw [List.append_assoc]]
        rw [List.foldl_append]
        refine ih _ ?_ (fun j hj => hord j (List.mem_cons_of_mem _ hj)) k hkrest
        have h2 := cnt_foldl_le ((if (vs k0).isEmpty then [""] else vs k0) ++ [""])
          ({ cs := k0, cc := [underlineOf k0], m := flushInto { st with cnt := st.cnt + 1 },
             cnt := st.cnt + 2 } : WalkState)
        exact le_trans (show (1 : Nat) ≤ st.cnt + 2 by omega) h2

end Verify

namespace Verify

lemma step_header_first {st : WalkState} {k : String} (hk : k ∈ sectionOrder)
    (hcnt : st.cnt = 0) :
    step st (strUpper k) = { st with cc := st.cc ++ [strUpper k], cnt := 1 } := by
  obtain ⟨hstrip, hskip, hid⟩ := headerFacts k hk (decide (st.cnt + 1 < 5))
  unfold step
  dsimp only
  rw [hstrip, if_neg (by simp [hskip]), hid, hcnt]
  rfl

lemma foldl_first_contact (content tail : List String) (st : WalkState)
    (hcnt : st.cnt = 0) (hcc : st.cc = []) :
    List.foldl step st (renderBlock "contact" content ++ tail) =
      List.foldl step
        { st with cc := [strUpper "contact", underlineOf "contact"], cnt := 2 }
        ((if content.isEmpty then [""] else content) ++ tail) := by
  have h1 : renderBlock "contact" content ++ tail =
      strUpper "contact" :: underlineOf "contact" ::
        ((if content.isEmpty then [""] else content) ++ tail) := by
    simp [renderBlock]
  have hmem : ("contact" : String) ∈ sectionOrder := by decide
  rw [h1, List.foldl_cons, List.foldl_cons, step_header_first hmem hcnt,
    step_content ((underlineFacts _ hmem true).1) ((underlineFacts _ hmem true).2.1)
      (fun b => (underlineFacts _ hmem b).2.2)]
  rw [hcc]
  rfl

lemma tailOrder_sub :
    ∀ x ∈ ["summary", "experience", "education", "skills", "certifications",
           "projects", "awards"], x ∈ sectionOrder := by decide

end Verify

/-- C6 counterexample: re-segmenting the reconstructed output does not in
general recover the same section keys.  On this four-line resume the
segmenter stores the protected-zone line "== Skills ==" as experience
content; re-segmentation sees it outside the protected zone, honors it as a
header, and a new `skills` key appears. -/
theorem C6_resegment_counterexample :
    keysOf (extractSections ["John Smith", "EXPERIENCE", "== Skills ==", "did things"]) =
        ["contact", "experience"] ∧
      keysOf (extractSections (combineSections
          (extractSections ["John Smith", "EXPERIENCE", "== Skills ==", "did things"]))) =
        ["contact", "experience", "skills"] ∧
      ¬ (∀ a : String,
          a ∈ keysOf (extractSections (combineSections
            (extractSections ["John Smith", "EXPERIENCE", "== Skills ==", "did things"]))) ↔
          a ∈ keysOf (extractSections
            ["John Smith", "EXPERIENCE", "== Skills ==", "did things"])) := by
  refine ⟨by decide, by decide, fun h => ?_⟩
  have := (h "skills").1 (by decide)
  exact absurd this (by decide)

/-- C6 (amended): re-segmenting the reconstructed document recovers at least
the original sections: every section key produced by the segmenter is again
a key after rendering with the reconstructor and re-extracting.  (The key
sets need not be equal: stored content lines that themselves match header
patterns add keys, as the counterexample shows.) -/
theorem C6_resegment_recovers_keys (lines : List String) :
    keysOf (extractSections lines) ⊆
      keysOf (extractSections (combineSections (extractSections lines))) := by
  intro k hk
  by_cases hkc : k = "contact"
  · subst hkc
    exact Verify.contact_mem_extract _
  · have hkord := Verify.extract_keys_canonical lines k hk
    have hkhas : alHas (extractSections lines) k = true :=
      (Verify.alHas_iff_mem_keys _ _).2 hk
    have hch : alHas (extractSections lines) "contact" = true :=
      (Verify.alHas_iff_mem_keys _ _).2 (Verify.contact_mem_extract lines)
    set m := extractSections lines with hm
    have hktail : k ∈ ["summary", "experience", "education", "skills", "certifications",
        "projects", "awards"] := by
      have hso : sectionOrder = "contact" :: ["summary", "experience", "education", "skills",
          "certifications", "projects", "awards"] := rfl
      rw [hso] at hkord
      rcases List.mem_cons.1 hkord with rfl | h
      · exact absurd rfl hkc
      · exact h
    have hpres : List.filter (fun j => alHas m j) sectionOrder =
        "contact" :: List.filter (fun j => alHas m j)
          ["summary", "experience", "education", "skills", "certifications",
           "projects", "awards"] := by
      have hso : sectionOrder = "contact" :: ["summary", "experience", "education", "skills",
          "certifications", "projects", "awards"] := rfl
      rw [hso, List.filter_cons_of_pos hch]
    have hkrest : k ∈ List.filter (fun j => alHas m j)
        ["summary", "experience", "education", "skills", "certifications",
         "projects", "awards"] :=
      List.mem_filter.2 ⟨hktail, hkhas⟩
    rcases hrf : List.filter (fun j => alHas m j)
        ["summary", "experience", "education", "skills", "certifications",
         "projects", "awards"] with _ | ⟨r, rs⟩
    · rw [hrf] at hkrest
      exact absurd hkrest (List.not_mem_nil k)
    rw [hrf] at hkrest
    have hcombeq : combineSections m =
        dropEndEmpties (joinBlankSep (("contact" :: r :: rs).map
          (fun j => renderBlock j (alGet m j)))) := by
      unfold combineSections
      rw [show (List.filter (alHas m ·) sectionOrder) = "contact" :: r :: rs from by
        rw [hpres, hrf]]
    have hfull : joinBlankSep (("contact" :: r :: rs).map
          (fun j => renderBlock j (alGet m j))) =
        renderBlock "contact" (alGet m "contact") ++
          ([""] ++ joinBlankSep ((r :: rs).map (fun j => renderBlock j (alGet m j)))) := by
      simp only [List.map_cons]
      rw [Verify.joinBlankSep_cons_cons, List.append_assoc]
    have hfrontshape : joinBlankSep (("contact" :: r :: rs).map
          (fun j => renderBlock j (alGet m j))) =
        strUpper "contact" :: (underlineOf "contact" ::
          ((if (alGet m "contact").isEmpty then [""] else alGet m "contact") ++
            ([""] ++ joinBlankSep ((r :: rs).map (fun j => renderBlock j (alGet m j)))))) := by
      rw [hfull]
      simp [renderBlock]
    have hfront : List.dropWhile (fun x => x == "")
        (joinBlankSep (("contact" :: r :: rs).map (fun j => renderBlock j (alGet m j)))) =
        joinBlankSep (("contact" :: r :: rs).map (fun j => renderBlock j (alGet m j))) := by
      rw [hfrontshape, List.dropWhile_cons, if_neg (by decide)]
    obtain ⟨es, hsplit, hes⟩ := Verify.dropTrailing_spec
      (joinBlankSep (("contact" :: r :: rs).map (fun j => renderBlock j (alGet m j))))
    have hL : combineSections m =
        ((joinBlankSep (("contact" :: r :: rs).map
          (fun j => renderBlock j (alGet m j)))).reverse.dropWhile (fun x => x == "")).reverse := by
      rw [hcombeq]
      unfold dropEndEmpties
      rw [hfront]
    have hsplitL : joinBlankSep (("contact" :: r :: rs).map
          (fun j => renderBlock j (alGet m j))) = combineSections m ++ es := by
      rw [hL]
      exact hsplit
    have hord' : ∀ j ∈ (r :: rs), j ∈ sectionOrder := by
      intro j hj
      rw [← hrf] at hj
      exact Verify.tailOrder_sub j (List.mem_filter.1 hj).1
    unfold extractSections
    dsimp only
    apply Verify.keys_alSet_mono
    have hfold : List.foldl step
        { cs := "contact", cc := [],
          m := [("contact", contactRawLines (combineSections m))], cnt := 0 }
        (combineSections m) =
        List.foldl step
        { cs := "contact", cc := [],
          m := [("contact", contactRawLines (combineSections m))], cnt := 0 }
        (joinBlankSep (("contact" :: r :: rs).map (fun j => renderBlock j (alGet m j)))) := by
      rw [hsplitL, List.foldl_append, Verify.foldl_empties es hes]
    rw [hfold, hfull, Verify.foldl_first_contact _ _ _ rfl rfl,
      show ((if (alGet m "contact").isEmpty then [""] else alGet m "contact") ++
          ([""] ++ joinBlankSep ((r :: rs).map (fun j => renderBlock j (alGet m j))))) =
        (((if (alGet m "contact").isEmpty then [""] else alGet m "contact") ++ [""]) ++
          joinBlankSep ((r :: rs).map (fun j => renderBlock j (alGet m j)))) from
        (List.append_assoc _ _ _).symm,
      List.foldl_append]
    refine Verify.run_blocks (fun j => alGet m j) (r :: rs) _ ?_ hord' k hkrest
    have h2 := Verify.cnt_foldl_le
      ((if (alGet m "contact").isEmpty then [""] else alGet m "contact") ++ [""])
      ({ cs := "contact", cc := [strUpper "contact", underlineOf "contact"],
         m := [("contact", contactRawLines (combineSections m))], cnt := 2 } : WalkState)
    exact le_trans (show (1 : Nat) ≤ 2 by omega) h2
